import Mathlib

/-!
# Verification of the procan study-schedule generator

Shallow embedding of the schedule-generation core of `src/2days/src/App.tsx`
(the `generateSchedule` function and its helpers), together with proofs and
refutations of the specification's claims about it.

Modelling conventions:

* Calendar dates are modelled as natural numbers counting days since
  1970-01-01.  The source manipulates dates both as `Date` objects (advanced
  one day at a time) and as `YYYY-MM-DD` strings compared lexicographically;
  the spec notes that lexicographic order on such strings is date-order
  equivalent, so both coincide with the order on day numbers.  JavaScript's
  `Date.getDay()` returns 0 for Sunday; 1970-01-01 was a Thursday
  (`getDay() = 4`), so day number `d` has weekday `(d + 4) % 7`.
* All minute and hour quantities are natural numbers.  The source guards
  every subtraction so that it never goes below zero (`Math.max(0, _)`, loop
  guards), which matches truncated `Nat` subtraction; the places where this
  is used are noted inline.
* Task and subject identities are modelled as natural numbers.  The source
  draws task ids from `uuid()` (random, globally unique); here ids are drawn
  deterministically from a fresh counter threaded through the run, which
  preserves everything the claims depend on (distinctness and the data
  carried by the tasks).
* `Subject.name` and `Subject.color` are UI-only fields (the spec calls the
  color cosmetic and the name is never read by the allocator); they are
  omitted from the embedding.
-/

namespace Procan

/-- A study subject (`interface Subject`); `name` and `color` are UI-only and
omitted.  `difficulty` is 1..10 in the source UI; the allocator itself only
multiplies it, so it is modelled as `Nat`. -/
structure Subject where
  id : Nat
  difficulty : Nat
  testDate : Nat
  deriving DecidableEq, Repr

/-- User settings (`interface UserSettings`). -/
structure UserSettings where
  weekdayHours : Nat
  weekendHours : Nat
  maxSubjectsPerDay : Nat
  deriving DecidableEq, Repr

/-- A single day's study assignment (`interface DailyTask`). -/
structure DailyTask where
  id : Nat
  subjectId : Nat
  date : Nat
  plannedMinutes : Nat
  completed : Bool
  actualMinutes : Nat
  isFixed : Bool
  deriving DecidableEq, Repr

/-- A pending-work item of one allocation run (the element type of the
source's `pendingWork` array). -/
structure WorkItem where
  subject : Subject
  minutesNeeded : Nat
  deriving DecidableEq, Repr

/-- Default `WorkItem` used for (never-taken) out-of-range index lookups. -/
def wdef : WorkItem := ⟨⟨0, 0, 0⟩, 0⟩

/-- JavaScript `getDay()` of a day number: 0 = Sunday, ..., 6 = Saturday. -/
def dayOfWeek (d : Nat) : Nat := (d + 4) % 7

/-- `dayOfWeek === 0 || dayOfWeek === 6` (App.tsx line 259). -/
def isWeekend (d : Nat) : Bool := dayOfWeek d == 0 || dayOfWeek d == 6

/-- `(isWeekend ? settings.weekendHours : settings.weekdayHours) * 60`
(App.tsx lines 260-261). -/
def capacityMinutes (settings : UserSettings) (d : Nat) : Nat :=
  (if isWeekend d then settings.weekendHours else settings.weekdayHours) * 60

/-- `t.isFixed || t.completed` (App.tsx lines 221-223): the predicate
selecting the preserved tasks. -/
def isFixedOrCompleted (t : DailyTask) : Bool := t.isFixed || t.completed

/-- `calculateTotalHoursNeeded` (App.tsx line 215): difficulty × 3 hours. -/
def calculateTotalHoursNeeded (diff : Nat) : Nat := diff * 3

/-- The minutes a preserved task contributes to a subject's allocation:
`t.completed ? t.actualMinutes : t.plannedMinutes` (App.tsx line 233). -/
def countedMinutes (t : DailyTask) : Nat :=
  if t.completed then t.actualMinutes else t.plannedMinutes

/-- `allocatedMins` for one subject id (App.tsx lines 229-235): sum of
`countedMinutes` over the preserved tasks of that subject. -/
def allocatedMins (foc : List DailyTask) (sid : Nat) : Nat :=
  ((foc.filter (fun t => t.subjectId == sid)).map countedMinutes).sum

/-- The initial `pendingWork` list (App.tsx lines 226-242).  `Math.max(0, …)`
is `Nat` truncated subtraction. -/
def initialPendingWork (subjects : List Subject) (foc : List DailyTask) :
    List WorkItem :=
  (subjects.map (fun s =>
    { subject := s
      minutesNeeded :=
        calculateTotalHoursNeeded s.difficulty * 60 - allocatedMins foc s.id })).filter
    (fun w => 0 < w.minutesNeeded)

/-- The tasks of a list lying on a given date. -/
def tasksOnDate (tasks : List DailyTask) (d : Nat) : List DailyTask :=
  tasks.filter (fun tk => tk.date == d)

/-- Sum of `plannedMinutes` over the tasks on a given date
(`existingMinsToday`, App.tsx lines 264-266). -/
def sumPlannedOn (tasks : List DailyTask) (d : Nat) : Nat :=
  ((tasksOnDate tasks d).map (fun tk => tk.plannedMinutes)).sum

/-- Sum of `plannedMinutes` over the tasks of a given subject id. -/
def sumPlannedFor (tasks : List DailyTask) (sid : Nat) : Nat :=
  ((tasks.filter (fun tk => tk.subjectId == sid)).map
    (fun tk => tk.plannedMinutes)).sum

/-- Total remaining `minutesNeeded` of the pending-work items carrying a
given subject id. -/
def needFor (pw : List WorkItem) (sid : Nat) : Nat :=
  ((pw.filter (fun w => w.subject.id == sid)).map
    (fun w => w.minutesNeeded)).sum

/-- Insert into a duplicate-free accumulator, modelling `Set.add`. -/
def dedupInsert (acc : List Nat) (x : Nat) : List Nat :=
  if x ∈ acc then acc else x :: acc

/-- `assignedSubjectIdsToday` before the day's inner loop (App.tsx lines
269-272): the distinct subject ids among preserved tasks on the date. -/
def initialAssigned (foc : List DailyTask) (d : Nat) : List Nat :=
  (tasksOnDate foc d).foldl (fun acc tk => dedupInsert acc tk.subjectId) []

/-- The distinct subject ids among the tasks on a date, as a finite set. -/
def sidFinsetOn (tasks : List DailyTask) (d : Nat) : Finset Nat :=
  ((tasksOnDate tasks d).map (fun tk => tk.subjectId)).toFinset

/-- Number of distinct subject ids having at least one task on a date. -/
def distinctSubjectCountOn (tasks : List DailyTask) (d : Nat) : Nat :=
  (sidFinsetOn tasks d).card

/-- Eligibility filter for one day (App.tsx line 279), over indices into the
current `pendingWork` list: the test date has not passed and minutes are
still needed.  Indices stand for the object references the source keeps in
its `activeSubjects` array. -/
def eligibleIdx (pw : List WorkItem) (d : Nat) : List Nat :=
  (List.range pw.length).filter (fun i =>
    decide (d ≤ (pw.getD i wdef).subject.testDate) &&
    decide (0 < (pw.getD i wdef).minutesNeeded))

/-- The sort comparator (App.tsx lines 280-285) as a `Bool` relation on
indices: `idxLe pw i j` holds when the comparator puts `i` at or before `j`
(comparator value ≤ 0): ascending test date, then descending difficulty. -/
def idxLe (pw : List WorkItem) (i j : Nat) : Bool :=
  if (pw.getD i wdef).subject.testDate = (pw.getD j wdef).subject.testDate then
    decide ((pw.getD j wdef).subject.difficulty ≤ (pw.getD i wdef).subject.difficulty)
  else
    decide ((pw.getD i wdef).subject.testDate < (pw.getD j wdef).subject.testDate)

/-- Stable insertion used to model JavaScript's stable `Array.sort`. -/
def insQ (le : Nat → Nat → Bool) (i : Nat) : List Nat → List Nat
  | [] => [i]
  | j :: rest => if le i j then i :: j :: rest else j :: insQ le i rest

/-- Stable insertion sort modelling `Array.sort` with the day comparator. -/
def sortQ (le : Nat → Nat → Bool) : List Nat → List Nat
  | [] => []
  | i :: rest => insQ le i (sortQ le rest)

/-- `t.date === dateStr && t.subjectId === work.subject.id`
(App.tsx lines 310-312): the merge key of the new-task accumulator. -/
def taskKeyMatch (d sid : Nat) (tk : DailyTask) : Bool :=
  tk.date == d && tk.subjectId == sid

/-- Add minutes to the first task in the accumulator matching the merge key
(App.tsx line 315). -/
def extendFirst (d sid add : Nat) : List DailyTask → List DailyTask
  | [] => []
  | tk :: rest =>
    if taskKeyMatch d sid tk then
      { tk with plannedMinutes := tk.plannedMinutes + add } :: rest
    else
      tk :: extendFirst d sid add rest

/-- The subject-cap gate (App.tsx lines 293-296):
`!assignedSubjectIdsToday.has(id) && assignedSubjectIdsToday.size >= maxSubjectsPerDay`. -/
def gateBlocked (cap : Nat) (assigned : List Nat) (sid : Nat) : Bool :=
  !(assigned.contains sid) && decide (cap ≤ assigned.length)

/-- The mutable state of one day's inner allocation loop (App.tsx lines
288-337).  `pw` is the run-global `pendingWork` (items are mutated through
the queue's index references), `queue` is `activeSubjects` as indices into
`pw`, `assigned` is `assignedSubjectIdsToday`, `tasks` is the run-global
`newAutoTasks` accumulator, `alloc` is `minutesAllocatedToday`, and
`nextId` is the fresh-id counter standing for `uuid()`. -/
structure DayState where
  pw : List WorkItem
  queue : List Nat
  assigned : List Nat
  tasks : List DailyTask
  alloc : Nat
  nextId : Nat
  deriving DecidableEq, Repr

/-- One allocation step of the inner loop, in the case where the cap gate
did not block the queue head (App.tsx lines 302-336): allocate
`min(30, maxMinutes - minutesAllocatedToday, work.minutesNeeded)` minutes,
merge or create the (subject, date) task, mark the subject assigned,
decrement the work item, and rotate or drop the queue head. -/
def allocStep (maxM dateD : Nat) (st : DayState) (i : Nat) (rest : List Nat) :
    DayState :=
  let w := st.pw.getD i wdef
  let t := min 30 (min (maxM - st.alloc) w.minutesNeeded)
  let hasTask := st.tasks.any (taskKeyMatch dateD w.subject.id)
  { pw := st.pw.set i ⟨w.subject, w.minutesNeeded - t⟩
    queue := if w.minutesNeeded - t = 0 then rest else rest ++ [i]
    assigned := dedupInsert st.assigned w.subject.id
    tasks :=
      if hasTask then extendFirst dateD w.subject.id t st.tasks
      else st.tasks ++ [⟨st.nextId, w.subject.id, dateD, t, false, 0, false⟩]
    alloc := st.alloc + t
    nextId := if hasTask then st.nextId else st.nextId + 1 }

/-- The day's inner loop (App.tsx lines 288-337):
`while (minutesAllocatedToday < maxMinutes && activeSubjects.length > 0)`.
The `fuel` parameter only makes the recursion structural; `runDay` calls it
with provably sufficient fuel (see `allocDay_fuel_ge`), so it is exactly the
source's unbounded `while`. -/
def allocDay (cap maxM dateD : Nat) : Nat → DayState → DayState
  | 0, st => st
  | fuel + 1, st =>
    if st.alloc < maxM then
      match st.queue with
      | [] => st
      | i :: rest =>
        if gateBlocked cap st.assigned ((st.pw.getD i wdef).subject.id) then
          allocDay cap maxM dateD fuel { st with queue := rest }
        else
          allocDay cap maxM dateD fuel (allocStep maxM dateD st i rest)
    else st

/-- The run-global state threaded through the day loop. -/
structure RunState where
  pw : List WorkItem
  tasks : List DailyTask
  nextId : Nat
  deriving DecidableEq, Repr

/-- One iteration of the outer day loop (App.tsx lines 257-337): compute the
day's capacity, existing minutes, pre-assigned subjects and sorted eligible
queue, then run the inner loop. -/
def runDay (foc : List DailyTask) (settings : UserSettings) (d : Nat)
    (rs : RunState) : RunState :=
  let maxM := capacityMinutes settings d
  let queue := sortQ (idxLe rs.pw) (eligibleIdx rs.pw d)
  let st := allocDay settings.maxSubjectsPerDay maxM d (maxM + queue.length + 1)
    ⟨rs.pw, queue, initialAssigned foc d, rs.tasks, sumPlannedOn foc d, rs.nextId⟩
  ⟨st.pw, st.tasks, st.nextId⟩

/-- The outer day loop (App.tsx lines 253-341):
`while (pendingWork.some(w => w.minutesNeeded > 0) && daysCount < MAX_DAYS)`,
with `MAX_DAYS = 365`; the fuel is exactly the `daysCount < 365` bound. -/
def allocLoop (foc : List DailyTask) (settings : UserSettings) :
    Nat → Nat → RunState → RunState
  | 0, _, rs => rs
  | fuel + 1, d, rs =>
    if rs.pw.any (fun w => decide (0 < w.minutesNeeded)) then
      allocLoop foc settings fuel (d + 1) (runDay foc settings d rs)
    else rs

/-- One full allocation run of `generateSchedule` (App.tsx lines 217-341),
anchored at `today`, returning the final run state. -/
def runAllocator (subjects : List Subject) (schedule : List DailyTask)
    (settings : UserSettings) (today : Nat) : RunState :=
  let foc := schedule.filter isFixedOrCompleted
  allocLoop foc settings 365 today ⟨initialPendingWork subjects foc, [], 0⟩

/-- The newly generated tasks of one run (`newAutoTasks` at App.tsx
line 343).  When `subjects` is empty the source returns before allocating,
which coincides with the run producing no tasks. -/
def generateSchedule (subjects : List Subject) (schedule : List DailyTask)
    (settings : UserSettings) (today : Nat) : List DailyTask :=
  (runAllocator subjects schedule settings today).tasks

/-- The final `pendingWork` of one run (used to express "remaining need
reaches 0 during the run"). -/
def finalPendingWork (subjects : List Subject) (schedule : List DailyTask)
    (settings : UserSettings) (today : Nat) : List WorkItem :=
  (runAllocator subjects schedule settings today).pw

/-- The schedule state after a `generateSchedule` call: the source returns
early (leaving the schedule untouched) when `subjects` is empty (App.tsx
line 218), and otherwise replaces the schedule with
`[...fixedOrCompletedTasks, ...newAutoTasks]` (App.tsx line 343). -/
def mergedSchedule (subjects : List Subject) (schedule : List DailyTask)
    (settings : UserSettings) (today : Nat) : List DailyTask :=
  if subjects.isEmpty then schedule
  else
    schedule.filter isFixedOrCompleted ++
      generateSchedule subjects schedule settings today

/-- Termination measure of the inner loop: remaining capacity plus queue
length; every iteration strictly decreases it. -/
def dayMeasure (maxM : Nat) (st : DayState) : Nat :=
  (maxM - st.alloc) + st.queue.length

end Procan

/-!
## Helper lemmas

General facts about the small building blocks of the embedding.
-/

namespace Procan

theorem insQ_perm (le : Nat → Nat → Bool) (i : Nat) :
    ∀ l : List Nat, List.Perm (insQ le i l) (i :: l) := by
  intro l
  induction l with
  | nil => simp [insQ]
  | cons j rest ih =>
    simp only [insQ]
    split
    · exact List.Perm.refl _
    · exact (ih.cons j).trans (List.Perm.swap i j rest)

theorem sortQ_perm (le : Nat → Nat → Bool) :
    ∀ l : List Nat, List.Perm (sortQ le l) l := by
  intro l
  induction l with
  | nil => simp [sortQ]
  | cons i rest ih =>
    exact (insQ_perm le i (sortQ le rest)).trans (ih.cons i)

theorem mem_dedupInsert (acc : List Nat) (x y : Nat) :
    y ∈ dedupInsert acc x ↔ y = x ∨ y ∈ acc := by
  unfold dedupInsert
  split
  · constructor
    · exact fun h => Or.inr h
    · rintro (rfl | h)
      · assumption
      · assumption
  · simp

theorem nodup_dedupInsert (acc : List Nat) (x : Nat) (h : acc.Nodup) :
    (dedupInsert acc x).Nodup := by
  unfold dedupInsert
  split
  · exact h
  · exact List.Nodup.cons (by assumption) h

theorem length_dedupInsert (acc : List Nat) (x : Nat) :
    (dedupInsert acc x).length = if x ∈ acc then acc.length else acc.length + 1 := by
  unfold dedupInsert
  split <;> simp_all

theorem mem_of_mem_dedupInsert_arg (acc : List Nat) (x y : Nat) (h : y ∈ acc) :
    y ∈ dedupInsert acc x := (mem_dedupInsert acc x y).mpr (Or.inr h)

theorem mem_dedupInsert_self (acc : List Nat) (x : Nat) : x ∈ dedupInsert acc x := by
  unfold dedupInsert
  split
  · assumption
  · exact List.mem_cons_self x acc

theorem nodup_foldl_dedupInsert (f : DailyTask → Nat) :
    ∀ (l : List DailyTask) (acc : List Nat), acc.Nodup →
      (l.foldl (fun acc tk => dedupInsert acc (f tk)) acc).Nodup := by
  intro l
  induction l with
  | nil => intro acc h; exact h
  | cons tk rest ih =>
    intro acc h
    exact ih (dedupInsert acc (f tk)) (nodup_dedupInsert acc (f tk) h)

theorem mem_foldl_dedupInsert (f : DailyTask → Nat) :
    ∀ (l : List DailyTask) (acc : List Nat) (x : Nat),
      x ∈ l.foldl (fun acc tk => dedupInsert acc (f tk)) acc ↔
        x ∈ acc ∨ ∃ tk ∈ l, f tk = x := by
  intro l
  induction l with
  | nil => simp
  | cons tk rest ih =>
    intro acc x
    simp only [List.foldl_cons, ih, mem_dedupInsert, List.mem_cons]
    constructor
    · rintro ((rfl | h) | ⟨tk', h1, h2⟩)
      · exact Or.inr ⟨tk, Or.inl rfl, rfl⟩
      · exact Or.inl h
      · exact Or.inr ⟨tk', Or.inr h1, h2⟩
    · rintro (h | ⟨tk', (rfl | h1), h2⟩)
      · exact Or.inl (Or.inr h)
      · exact Or.inl (Or.inl h2.symm)
      · exact Or.inr ⟨tk', h1, h2⟩

theorem nodup_initialAssigned (foc : List DailyTask) (d : Nat) :
    (initialAssigned foc d).Nodup :=
  nodup_foldl_dedupInsert _ _ _ List.nodup_nil

theorem mem_initialAssigned (foc : List DailyTask) (d : Nat) (x : Nat) :
    x ∈ initialAssigned foc d ↔ ∃ tk ∈ tasksOnDate foc d, tk.subjectId = x := by
  unfold initialAssigned
  rw [mem_foldl_dedupInsert]
  simp

theorem initialAssigned_toFinset (foc : List DailyTask) (d : Nat) :
    (initialAssigned foc d).toFinset = sidFinsetOn foc d := by
  ext x
  simp only [List.mem_toFinset, mem_initialAssigned, sidFinsetOn, List.mem_map]

theorem length_initialAssigned (foc : List DailyTask) (d : Nat) :
    (initialAssigned foc d).length = distinctSubjectCountOn foc d := by
  rw [distinctSubjectCountOn, ← initialAssigned_toFinset,
    List.toFinset_card_of_nodup (nodup_initialAssigned foc d)]


theorem taskKeyMatch_iff (d sid : Nat) (tk : DailyTask) :
    taskKeyMatch d sid tk = true ↔ tk.date = d ∧ tk.subjectId = sid := by
  simp [taskKeyMatch]

theorem sumPlannedOn_cons (tk : DailyTask) (l : List DailyTask) (d : Nat) :
    sumPlannedOn (tk :: l) d =
      (if tk.date = d then tk.plannedMinutes else 0) + sumPlannedOn l d := by
  simp only [sumPlannedOn, tasksOnDate, List.filter_cons]
  by_cases h : tk.date = d
  · simp [h]
  · simp [h]

theorem sumPlannedOn_append (l1 l2 : List DailyTask) (d : Nat) :
    sumPlannedOn (l1 ++ l2) d = sumPlannedOn l1 d + sumPlannedOn l2 d := by
  simp [sumPlannedOn, tasksOnDate, List.filter_append]

theorem sumPlannedFor_cons (tk : DailyTask) (l : List DailyTask) (sid : Nat) :
    sumPlannedFor (tk :: l) sid =
      (if tk.subjectId = sid then tk.plannedMinutes else 0) + sumPlannedFor l sid := by
  simp only [sumPlannedFor, List.filter_cons]
  by_cases h : tk.subjectId = sid
  · simp [h]
  · simp [h]

theorem sumPlannedFor_append (l1 l2 : List DailyTask) (sid : Nat) :
    sumPlannedFor (l1 ++ l2) sid = sumPlannedFor l1 sid + sumPlannedFor l2 sid := by
  simp [sumPlannedFor, List.filter_append]

theorem needFor_cons (w : WorkItem) (pw : List WorkItem) (sid : Nat) :
    needFor (w :: pw) sid =
      (if w.subject.id = sid then w.minutesNeeded else 0) + needFor pw sid := by
  simp only [needFor, List.filter_cons]
  by_cases h : w.subject.id = sid
  · simp [h]
  · simp [h]

theorem sidFinsetOn_append (l1 l2 : List DailyTask) (d : Nat) :
    sidFinsetOn (l1 ++ l2) d = sidFinsetOn l1 d ∪ sidFinsetOn l2 d := by
  simp [sidFinsetOn, tasksOnDate, List.filter_append]

theorem tasksOnDate_nil_of_lt (l : List DailyTask) (d : Nat)
    (h : ∀ tk ∈ l, tk.date < d) : tasksOnDate l d = [] := by
  rw [tasksOnDate, List.filter_eq_nil_iff]
  intro tk hmem
  simp only [beq_iff_eq]
  exact Nat.ne_of_lt (h tk hmem)

theorem sumPlannedOn_nil_of_lt (l : List DailyTask) (d : Nat)
    (h : ∀ tk ∈ l, tk.date < d) : sumPlannedOn l d = 0 := by
  simp [sumPlannedOn, tasksOnDate_nil_of_lt l d h]

theorem sidFinsetOn_nil_of_lt (l : List DailyTask) (d : Nat)
    (h : ∀ tk ∈ l, tk.date < d) : sidFinsetOn l d = ∅ := by
  simp [sidFinsetOn, tasksOnDate_nil_of_lt l d h]

theorem extendFirst_tasksOnDate_ne (d sid t d' : Nat) (hne : d' ≠ d) :
    ∀ l : List DailyTask,
      tasksOnDate (extendFirst d sid t l) d' = tasksOnDate l d' := by
  intro l
  induction l with
  | nil => rfl
  | cons tk rest ih =>
    simp only [extendFirst]
    by_cases h : taskKeyMatch d sid tk = true
    · rw [if_pos h]
      obtain ⟨hd, hs⟩ := (taskKeyMatch_iff d sid tk).mp h
      simp only [tasksOnDate, List.filter_cons]
      have h1 : (tk.date == d') = false := by simp [hd, Ne.symm hne]
      simp [h1, hd, Ne.symm hne]
    · rw [if_neg h]
      simp only [tasksOnDate, List.filter_cons] at ih ⊢
      by_cases h2 : (tk.date == d') = true
      · simp [h2, ih]
      · simp only [Bool.not_eq_true] at h2
        simp [h2, ih]

theorem extendFirst_sumPlannedOn (d sid t : Nat) :
    ∀ l : List DailyTask, l.any (taskKeyMatch d sid) = true →
      sumPlannedOn (extendFirst d sid t l) d = sumPlannedOn l d + t := by
  intro l
  induction l with
  | nil => intro h; simp at h
  | cons tk rest ih =>
    intro hany
    simp only [extendFirst]
    by_cases h : taskKeyMatch d sid tk = true
    · rw [if_pos h]
      obtain ⟨hd, hs⟩ := (taskKeyMatch_iff d sid tk).mp h
      rw [sumPlannedOn_cons, sumPlannedOn_cons]
      simp only [hd]
      simp
      omega
    · rw [if_neg h]
      have hrest : rest.any (taskKeyMatch d sid) = true := by
        rcases (List.any_eq_true.mp hany) with ⟨x, hx, hpx⟩
        rcases List.mem_cons.mp hx with rfl | hx2
        · exact absurd hpx h
        · exact List.any_eq_true.mpr ⟨x, hx2, hpx⟩
      rw [sumPlannedOn_cons, sumPlannedOn_cons, ih hrest]
      omega

theorem extendFirst_sumPlannedFor (d sid t : Nat) :
    ∀ l : List DailyTask, l.any (taskKeyMatch d sid) = true →
      sumPlannedFor (extendFirst d sid t l) sid = sumPlannedFor l sid + t := by
  intro l
  induction l with
  | nil => intro h; simp at h
  | cons tk rest ih =>
    intro hany
    simp only [extendFirst]
    by_cases h : taskKeyMatch d sid tk = true
    · rw [if_pos h]
      obtain ⟨hd, hs⟩ := (taskKeyMatch_iff d sid tk).mp h
      rw [sumPlannedFor_cons, sumPlannedFor_cons]
      simp only [hs]
      simp
      omega
    · rw [if_neg h]
      have hrest : rest.any (taskKeyMatch d sid) = true := by
        rcases (List.any_eq_true.mp hany) with ⟨x, hx, hpx⟩
        rcases List.mem_cons.mp hx with rfl | hx2
        · exact absurd hpx h
        · exact List.any_eq_true.mpr ⟨x, hx2, hpx⟩
      rw [sumPlannedFor_cons, sumPlannedFor_cons, ih hrest]
      omega

theorem extendFirst_sumPlannedFor_ne (d sid t sid' : Nat) (hne : sid' ≠ sid) :
    ∀ l : List DailyTask,
      sumPlannedFor (extendFirst d sid t l) sid' = sumPlannedFor l sid' := by
  intro l
  induction l with
  | nil => rfl
  | cons tk rest ih =>
    simp only [extendFirst]
    by_cases h : taskKeyMatch d sid tk = true
    · rw [if_pos h]
      obtain ⟨hd, hs⟩ := (taskKeyMatch_iff d sid tk).mp h
      rw [sumPlannedFor_cons, sumPlannedFor_cons]
      simp [hs, Ne.symm hne]
    · rw [if_neg h]
      rw [sumPlannedFor_cons, sumPlannedFor_cons, ih]

theorem extendFirst_keys (d sid t : Nat) :
    ∀ l : List DailyTask,
      (extendFirst d sid t l).map (fun tk => (tk.subjectId, tk.date)) =
        l.map (fun tk => (tk.subjectId, tk.date)) := by
  intro l
  induction l with
  | nil => rfl
  | cons tk rest ih =>
    simp only [extendFirst]
    by_cases h : taskKeyMatch d sid tk = true
    · rw [if_pos h]
      simp
    · rw [if_neg h]
      simp [ih]

theorem extendFirst_shape (d sid t : Nat) :
    ∀ l : List DailyTask, ∀ tk' ∈ extendFirst d sid t l,
      ∃ tk ∈ l, tk'.subjectId = tk.subjectId ∧ tk'.date = tk.date ∧
        tk'.completed = tk.completed ∧ tk'.isFixed = tk.isFixed ∧
        (tk'.plannedMinutes = tk.plannedMinutes ∨
          tk'.plannedMinutes = tk.plannedMinutes + t) := by
  intro l
  induction l with
  | nil => intro tk' h; simp [extendFirst] at h
  | cons tk rest ih =>
    intro tk' hmem
    simp only [extendFirst] at hmem
    by_cases h : taskKeyMatch d sid tk = true
    · rw [if_pos h] at hmem
      rcases List.mem_cons.mp hmem with rfl | hmem2
      · exact ⟨tk, List.mem_cons_self tk rest, rfl, rfl, rfl, rfl, Or.inr rfl⟩
      · exact ⟨tk', List.mem_cons_of_mem tk hmem2, rfl, rfl, rfl, rfl, Or.inl rfl⟩
    · rw [if_neg h] at hmem
      rcases List.mem_cons.mp hmem with rfl | hmem2
      · exact ⟨tk', List.mem_cons_self _ _, rfl, rfl, rfl, rfl, Or.inl rfl⟩
      · obtain ⟨tk0, h0, hrest⟩ := ih tk' hmem2
        exact ⟨tk0, List.mem_cons_of_mem tk h0, hrest⟩

theorem needFor_set (pw : List WorkItem) (i t sid : Nat)
    (h : t ≤ (pw.getD i wdef).minutesNeeded) :
    needFor (pw.set i ⟨(pw.getD i wdef).subject,
        (pw.getD i wdef).minutesNeeded - t⟩) sid +
      (if (pw.getD i wdef).subject.id = sid then t else 0) = needFor pw sid := by
  induction pw generalizing i with
  | nil =>
    have ht : t = 0 := by
      cases i <;> simpa [wdef] using h
    subst ht
    cases i <;> simp [needFor, wdef]
  | cons w rest ih =>
    cases i with
    | zero =>
      rw [List.getD_cons_zero] at h ⊢
      rw [List.set_cons_zero, needFor_cons, needFor_cons]
      by_cases hs : w.subject.id = sid
      · simp only [hs, if_pos]
        omega
      · simp [hs]
    | succ i =>
      rw [List.getD_cons_succ] at h ⊢
      rw [List.set_cons_succ, needFor_cons, needFor_cons]
      have := ih i h
      omega


theorem map_subject_set (n : Nat) :
    ∀ (pw : List WorkItem) (i : Nat),
      (pw.set i ⟨(pw.getD i wdef).subject, n⟩).map (fun w => w.subject) =
        pw.map (fun w => w.subject) := by
  intro pw
  induction pw with
  | nil => intro i; cases i <;> rfl
  | cons w rest ih =>
    intro i
    cases i with
    | zero => rfl
    | succ i =>
      rw [List.getD_cons_succ, List.set_cons_succ]
      simp only [List.map_cons, ih i]

theorem allocStep_alloc (maxM dateD : Nat) (st : DayState) (i : Nat)
    (rest : List Nat) :
    (allocStep maxM dateD st i rest).alloc =
      st.alloc +
        min 30 (min (maxM - st.alloc) ((st.pw.getD i wdef).minutesNeeded)) := rfl

theorem allocStep_pw (maxM dateD : Nat) (st : DayState) (i : Nat)
    (rest : List Nat) :
    (allocStep maxM dateD st i rest).pw =
      st.pw.set i ⟨(st.pw.getD i wdef).subject,
        (st.pw.getD i wdef).minutesNeeded -
          min 30 (min (maxM - st.alloc) ((st.pw.getD i wdef).minutesNeeded))⟩ := rfl

theorem allocStep_assigned (maxM dateD : Nat) (st : DayState) (i : Nat)
    (rest : List Nat) :
    (allocStep maxM dateD st i rest).assigned =
      dedupInsert st.assigned ((st.pw.getD i wdef).subject.id) := rfl

theorem allocStep_tasks (maxM dateD : Nat) (st : DayState) (i : Nat)
    (rest : List Nat) :
    (allocStep maxM dateD st i rest).tasks =
      if st.tasks.any (taskKeyMatch dateD ((st.pw.getD i wdef).subject.id)) then
        extendFirst dateD ((st.pw.getD i wdef).subject.id)
          (min 30 (min (maxM - st.alloc) ((st.pw.getD i wdef).minutesNeeded)))
          st.tasks
      else
        st.tasks ++ [⟨st.nextId, (st.pw.getD i wdef).subject.id, dateD,
          min 30 (min (maxM - st.alloc) ((st.pw.getD i wdef).minutesNeeded)),
          false, 0, false⟩] := rfl

theorem allocStep_queue (maxM dateD : Nat) (st : DayState) (i : Nat)
    (rest : List Nat) :
    (allocStep maxM dateD st i rest).queue =
      if (st.pw.getD i wdef).minutesNeeded -
          min 30 (min (maxM - st.alloc) ((st.pw.getD i wdef).minutesNeeded)) = 0
      then rest else rest ++ [i] := rfl

theorem allocStep_subjects (maxM dateD : Nat) (st : DayState) (i : Nat)
    (rest : List Nat) :
    (allocStep maxM dateD st i rest).pw.map (fun w => w.subject) =
      st.pw.map (fun w => w.subject) := by
  rw [allocStep_pw]
  exact map_subject_set _ st.pw i


theorem getD_mem : ∀ (l : List WorkItem) (i : Nat), i < l.length →
    l.getD i wdef ∈ l := by
  intro l
  induction l with
  | nil => intro i h; simp at h
  | cons w rest ih =>
    intro i h
    cases i with
    | zero => exact List.mem_cons_self _ _
    | succ i =>
      rw [List.getD_cons_succ]
      exact List.mem_cons_of_mem w (ih i (by simpa using h))

theorem getD_set_self (x : WorkItem) :
    ∀ (l : List WorkItem) (i : Nat), i < l.length →
      (l.set i x).getD i wdef = x := by
  intro l
  induction l with
  | nil => intro i h; simp at h
  | cons w rest ih =>
    intro i h
    cases i with
    | zero => rfl
    | succ i =>
      rw [List.set_cons_succ, List.getD_cons_succ]
      exact ih i (by simpa using h)

theorem getD_set_ne (x : WorkItem) :
    ∀ (l : List WorkItem) (i j : Nat), j ≠ i →
      (l.set i x).getD j wdef = l.getD j wdef := by
  intro l
  induction l with
  | nil => intro i j h; cases i <;> rfl
  | cons w rest ih =>
    intro i j h
    cases i with
    | zero =>
      cases j with
      | zero => exact absurd rfl h
      | succ j => rfl
    | succ i =>
      cases j with
      | zero => rfl
      | succ j =>
        rw [List.set_cons_succ, List.getD_cons_succ, List.getD_cons_succ]
        exact ih i j (fun hh => h (by rw [hh]))

theorem sumPlannedFor_singleton (tk : DailyTask) (sid : Nat) :
    sumPlannedFor [tk] sid = if tk.subjectId = sid then tk.plannedMinutes else 0 := by
  rw [show ([tk] : List DailyTask) = tk :: [] from rfl, sumPlannedFor_cons]
  simp [sumPlannedFor]

theorem extendFirst_mem (d sid t : Nat) :
    ∀ (l : List DailyTask) (tk : DailyTask), tk ∈ extendFirst d sid t l →
      tk ∈ l ∨ (tk.date = d ∧ tk.subjectId = sid) := by
  intro l
  induction l with
  | nil => intro tk h; simp [extendFirst] at h
  | cons hd rest ih =>
    intro tk hmem
    simp only [extendFirst] at hmem
    by_cases h : taskKeyMatch d sid hd = true
    · rw [if_pos h] at hmem
      obtain ⟨hd1, hd2⟩ := (taskKeyMatch_iff d sid hd).mp h
      rcases List.mem_cons.mp hmem with rfl | hmem2
      · exact Or.inr ⟨hd1, hd2⟩
      · exact Or.inl (List.mem_cons_of_mem hd hmem2)
    · rw [if_neg h] at hmem
      rcases List.mem_cons.mp hmem with rfl | hmem2
      · exact Or.inl (List.mem_cons_self _ _)
      · rcases ih tk hmem2 with h2 | h2
        · exact Or.inl (List.mem_cons_of_mem hd h2)
        · exact Or.inr h2

theorem dvd_min (k a b : Nat) (ha : k ∣ a) (hb : k ∣ b) : k ∣ min a b := by
  rw [Nat.min_def]
  split
  · exact ha
  · exact hb


theorem allocDay_alloc_mono (cap maxM dateD : Nat) :
    ∀ (fuel : Nat) (st : DayState),
      st.alloc ≤ (allocDay cap maxM dateD fuel st).alloc := by
  intro fuel
  induction fuel with
  | zero => intro st; exact Nat.le_refl _
  | succ n ih =>
    intro st
    simp only [allocDay]
    split
    · split
      · exact Nat.le_refl _
      · rename_i i rest hq
        split
        · exact ih { st with queue := rest }
        · refine le_trans ?_ (ih (allocStep maxM dateD st i rest))
          rw [allocStep_alloc]
          exact Nat.le_add_right _ _
    · exact Nat.le_refl _

theorem allocDay_alloc_le (cap maxM dateD : Nat) :
    ∀ (fuel : Nat) (st : DayState),
      (allocDay cap maxM dateD fuel st).alloc ≤ max st.alloc maxM := by
  intro fuel
  induction fuel with
  | zero => intro st; exact le_max_left _ _
  | succ n ih =>
    intro st
    simp only [allocDay]
    split
    · rename_i hlt
      split
      · exact le_max_left _ _
      · rename_i i rest hq
        split
        · exact ih { st with queue := rest }
        · refine le_trans (ih (allocStep maxM dateD st i rest)) ?_
          rw [allocStep_alloc]
          have ht : st.alloc + min 30 (min (maxM - st.alloc)
              ((st.pw.getD i wdef).minutesNeeded)) ≤ maxM := by omega
          omega
    · exact le_max_left _ _

theorem allocDay_tasksOnDate_ne (cap maxM dateD d' : Nat) (hne : d' ≠ dateD) :
    ∀ (fuel : Nat) (st : DayState),
      tasksOnDate (allocDay cap maxM dateD fuel st).tasks d' =
        tasksOnDate st.tasks d' := by
  intro fuel
  induction fuel with
  | zero => intro st; rfl
  | succ n ih =>
    intro st
    simp only [allocDay]
    split
    · split
      · rfl
      · rename_i i rest hq
        split
        · exact ih { st with queue := rest }
        · rw [ih (allocStep maxM dateD st i rest)]
          show tasksOnDate (allocStep maxM dateD st i rest).tasks d' = _
          rw [allocStep_tasks]
          split
          · exact extendFirst_tasksOnDate_ne _ _ _ _ hne st.tasks
          · rw [tasksOnDate, List.filter_append]
            have hd : ((⟨st.nextId, (st.pw.getD i wdef).subject.id, dateD,
                min 30 (min (maxM - st.alloc) ((st.pw.getD i wdef).minutesNeeded)),
                false, 0, false⟩ : DailyTask).date == d') = false := by
              simp [Ne.symm hne]
            simp [tasksOnDate, hd]
    · rfl

theorem allocDay_sumPlannedOn (cap maxM dateD : Nat) :
    ∀ (fuel : Nat) (st : DayState),
      sumPlannedOn (allocDay cap maxM dateD fuel st).tasks dateD + st.alloc =
        sumPlannedOn st.tasks dateD + (allocDay cap maxM dateD fuel st).alloc := by
  intro fuel
  induction fuel with
  | zero => intro st; rfl
  | succ n ih =>
    intro st
    simp only [allocDay]
    split
    · split
      · rfl
      · rename_i i rest hq
        split
        · exact ih { st with queue := rest }
        · have h2 := ih (allocStep maxM dateD st i rest)
          have hs : (allocStep maxM dateD st i rest).alloc =
              st.alloc + min 30 (min (maxM - st.alloc)
                ((st.pw.getD i wdef).minutesNeeded)) := allocStep_alloc _ _ _ _ _
          have htasks : sumPlannedOn (allocStep maxM dateD st i rest).tasks dateD =
              sumPlannedOn st.tasks dateD +
                min 30 (min (maxM - st.alloc) ((st.pw.getD i wdef).minutesNeeded)) := by
            rw [allocStep_tasks]
            split
            · exact extendFirst_sumPlannedOn _ _ _ st.tasks (by assumption)
            · rw [sumPlannedOn_append]
              have : sumPlannedOn [(⟨st.nextId, (st.pw.getD i wdef).subject.id, dateD,
                  min 30 (min (maxM - st.alloc) ((st.pw.getD i wdef).minutesNeeded)),
                  false, 0, false⟩ : DailyTask)] dateD =
                  min 30 (min (maxM - st.alloc) ((st.pw.getD i wdef).minutesNeeded)) := by
                simp [sumPlannedOn, tasksOnDate]
              rw [this]
          rw [htasks, hs] at h2
          omega
    · rfl


theorem allocDay_subjects_eq (cap maxM dateD : Nat) :
    ∀ (fuel : Nat) (st : DayState),
      (allocDay cap maxM dateD fuel st).pw.map (fun w => w.subject) =
        st.pw.map (fun w => w.subject) := by
  intro fuel
  induction fuel with
  | zero => intro st; rfl
  | succ n ih =>
    intro st
    simp only [allocDay]
    split
    · split
      · rfl
      · rename_i i rest hq
        split
        · exact ih { st with queue := rest }
        · rw [ih (allocStep maxM dateD st i rest)]
          exact allocStep_subjects _ _ _ _ _
    · rfl

theorem allocDay_pw_length (cap maxM dateD : Nat) :
    ∀ (fuel : Nat) (st : DayState),
      (allocDay cap maxM dateD fuel st).pw.length = st.pw.length := by
  intro fuel
  induction fuel with
  | zero => intro st; rfl
  | succ n ih =>
    intro st
    simp only [allocDay]
    split
    · split
      · rfl
      · rename_i i rest hq
        split
        · exact ih { st with queue := rest }
        · rw [ih (allocStep maxM dateD st i rest), allocStep_pw]
          exact List.length_set _ _ _
    · rfl

theorem allocDay_tasks_mem (cap maxM dateD : Nat) :
    ∀ (fuel : Nat) (st : DayState) (tk : DailyTask),
      tk ∈ (allocDay cap maxM dateD fuel st).tasks →
        tk.date = dateD ∨ tk ∈ st.tasks := by
  intro fuel
  induction fuel with
  | zero => intro st tk h; exact Or.inr h
  | succ n ih =>
    intro st tk
    simp only [allocDay]
    split
    · split
      · exact fun h => Or.inr h
      · rename_i i rest hq
        split
        · exact ih { st with queue := rest } tk
        · intro h
          rcases ih (allocStep maxM dateD st i rest) tk h with h2 | h2
          · exact Or.inl h2
          · rw [allocStep_tasks] at h2
            split at h2
            · rcases extendFirst_mem _ _ _ st.tasks tk h2 with h3 | h3
              · exact Or.inr h3
              · exact Or.inl h3.1
            · rcases List.mem_append.mp h2 with h3 | h3
              · exact Or.inr h3
              · rcases List.mem_singleton.mp h3 with rfl
                exact Or.inl rfl
    · exact fun h => Or.inr h

theorem allocDay_assigned_sub (cap maxM dateD : Nat) :
    ∀ (fuel : Nat) (st : DayState) (x : Nat),
      x ∈ st.assigned → x ∈ (allocDay cap maxM dateD fuel st).assigned := by
  intro fuel
  induction fuel with
  | zero => intro st x h; exact h
  | succ n ih =>
    intro st x hx
    simp only [allocDay]
    split
    · split
      · exact hx
      · rename_i i rest hq
        split
        · exact ih { st with queue := rest } x hx
        · refine ih (allocStep maxM dateD st i rest) x ?_
          rw [allocStep_assigned]
          exact mem_of_mem_dedupInsert_arg _ _ _ hx
    · exact hx

theorem allocDay_assigned_nodup (cap maxM dateD : Nat) :
    ∀ (fuel : Nat) (st : DayState),
      st.assigned.Nodup → (allocDay cap maxM dateD fuel st).assigned.Nodup := by
  intro fuel
  induction fuel with
  | zero => intro st h; exact h
  | succ n ih =>
    intro st hst
    simp only [allocDay]
    split
    · split
      · exact hst
      · rename_i i rest hq
        split
        · exact ih { st with queue := rest } hst
        · refine ih (allocStep maxM dateD st i rest) ?_
          rw [allocStep_assigned]
          exact nodup_dedupInsert _ _ hst
    · exact hst

theorem allocDay_assigned_card (cap maxM dateD : Nat) :
    ∀ (fuel : Nat) (st : DayState),
      (allocDay cap maxM dateD fuel st).assigned.length ≤
        max st.assigned.length cap := by
  intro fuel
  induction fuel with
  | zero => intro st; exact le_max_left _ _
  | succ n ih =>
    intro st
    simp only [allocDay]
    split
    · split
      · exact le_max_left _ _
      · rename_i i rest hq
        split
        · exact ih { st with queue := rest }
        · rename_i hgate
          refine le_trans (ih (allocStep maxM dateD st i rest)) ?_
          have hlen : (allocStep maxM dateD st i rest).assigned.length ≤
              max st.assigned.length cap := by
            rw [allocStep_assigned, length_dedupInsert]
            split
            · exact le_max_left _ _
            · rename_i hnotmem
              have hcap : st.assigned.length < cap := by
                simp only [gateBlocked, Bool.not_eq_true, Bool.and_eq_false_iff] at hgate
                rcases hgate with h1 | h1
                · have : (st.pw.getD i wdef).subject.id ∈ st.assigned := by
                    have := h1
                    simp only [Bool.not_eq_false] at this
                    simpa using this
                  exact absurd this hnotmem
                · have : ¬ cap ≤ st.assigned.length := by simpa using h1
                  omega
              omega
          omega
    · exact le_max_left _ _

theorem allocDay_tasks_assigned (cap maxM dateD : Nat) :
    ∀ (fuel : Nat) (st : DayState),
      (∀ tk ∈ st.tasks, tk.date = dateD → tk.subjectId ∈ st.assigned) →
      ∀ tk ∈ (allocDay cap maxM dateD fuel st).tasks, tk.date = dateD →
        tk.subjectId ∈ (allocDay cap maxM dateD fuel st).assigned := by
  intro fuel
  induction fuel with
  | zero => intro st h; exact h
  | succ n ih =>
    intro st hst
    simp only [allocDay]
    split
    · split
      · exact hst
      · rename_i i rest hq
        split
        · exact ih { st with queue := rest } hst
        · refine ih (allocStep maxM dateD st i rest) ?_
          intro tk htk hdate
          rw [allocStep_assigned]
          rw [allocStep_tasks] at htk
          split at htk
          · rcases extendFirst_mem _ _ _ st.tasks tk htk with h3 | h3
            · exact mem_of_mem_dedupInsert_arg _ _ _ (hst tk h3 hdate)
            · rw [h3.2]
              exact mem_dedupInsert_self _ _
          · rcases List.mem_append.mp htk with h3 | h3
            · exact mem_of_mem_dedupInsert_arg _ _ _ (hst tk h3 hdate)
            · rcases List.mem_singleton.mp h3 with rfl
              exact mem_dedupInsert_self _ _
    · exact hst


theorem allocDay_conservation (cap maxM dateD : Nat) :
    ∀ (fuel : Nat) (st : DayState) (sid : Nat),
      sumPlannedFor (allocDay cap maxM dateD fuel st).tasks sid +
          needFor (allocDay cap maxM dateD fuel st).pw sid =
        sumPlannedFor st.tasks sid + needFor st.pw sid := by
  intro fuel
  induction fuel with
  | zero => intro st sid; rfl
  | succ n ih =>
    intro st sid
    simp only [allocDay]
    split
    · split
      · rfl
      · rename_i i rest hq
        split
        · exact ih { st with queue := rest } sid
        · have h2 := ih (allocStep maxM dateD st i rest) sid
          rw [h2]
          have hle : min 30 (min (maxM - st.alloc)
              ((st.pw.getD i wdef).minutesNeeded)) ≤
              (st.pw.getD i wdef).minutesNeeded := by omega
          have hneed := needFor_set st.pw i
            (min 30 (min (maxM - st.alloc) ((st.pw.getD i wdef).minutesNeeded)))
            sid hle
          have htasks : sumPlannedFor (allocStep maxM dateD st i rest).tasks sid =
              sumPlannedFor st.tasks sid +
                (if (st.pw.getD i wdef).subject.id = sid then
                  min 30 (min (maxM - st.alloc) ((st.pw.getD i wdef).minutesNeeded))
                else 0) := by
            rw [allocStep_tasks]
            split
            · by_cases hsid : (st.pw.getD i wdef).subject.id = sid
              · rw [if_pos hsid, ← hsid]
                exact extendFirst_sumPlannedFor _ _ _ st.tasks (by assumption)
              · rw [if_neg hsid]
                have heq := extendFirst_sumPlannedFor_ne dateD
                  ((st.pw.getD i wdef).subject.id)
                  (min 30 (min (maxM - st.alloc) ((st.pw.getD i wdef).minutesNeeded)))
                  sid (fun hh => hsid hh.symm) st.tasks
                omega
            · rw [sumPlannedFor_append, sumPlannedFor_singleton]
          rw [htasks]
          show _ + needFor (allocStep maxM dateD st i rest).pw sid = _
          rw [allocStep_pw]
          omega
    · rfl

theorem allocDay_flags (cap maxM dateD : Nat) :
    ∀ (fuel : Nat) (st : DayState),
      (∀ tk ∈ st.tasks, tk.completed = false ∧ tk.isFixed = false) →
      ∀ tk ∈ (allocDay cap maxM dateD fuel st).tasks,
        tk.completed = false ∧ tk.isFixed = false := by
  intro fuel
  induction fuel with
  | zero => intro st h; exact h
  | succ n ih =>
    intro st hst
    simp only [allocDay]
    split
    · split
      · exact hst
      · rename_i i rest hq
        split
        · exact ih { st with queue := rest } hst
        · refine ih (allocStep maxM dateD st i rest) ?_
          intro tk htk
          rw [allocStep_tasks] at htk
          split at htk
          · obtain ⟨tk0, h0, _, _, hc, hf, _⟩ :=
              extendFirst_shape _ _ _ st.tasks tk htk
            obtain ⟨hc0, hf0⟩ := hst tk0 h0
            exact ⟨hc.trans hc0, hf.trans hf0⟩
          · rcases List.mem_append.mp htk with h3 | h3
            · exact hst tk h3
            · rcases List.mem_singleton.mp h3 with rfl
              exact ⟨rfl, rfl⟩
    · exact hst

theorem allocDay_keys_nodup (cap maxM dateD : Nat) :
    ∀ (fuel : Nat) (st : DayState),
      ((st.tasks.map (fun tk => (tk.subjectId, tk.date))).Nodup) →
      ((allocDay cap maxM dateD fuel st).tasks.map
        (fun tk => (tk.subjectId, tk.date))).Nodup := by
  intro fuel
  induction fuel with
  | zero => intro st h; exact h
  | succ n ih =>
    intro st hst
    simp only [allocDay]
    split
    · split
      · exact hst
      · rename_i i rest hq
        split
        · exact ih { st with queue := rest } hst
        · refine ih (allocStep maxM dateD st i rest) ?_
          rw [allocStep_tasks]
          split
          · rw [extendFirst_keys]
            exact hst
          · rename_i hnoany
            rw [List.map_append]
            have hnotin : ((st.pw.getD i wdef).subject.id, dateD) ∉
                st.tasks.map (fun tk => (tk.subjectId, tk.date)) := by
              intro hmem
              obtain ⟨tk0, h0, hkey⟩ := List.mem_map.mp hmem
              have : taskKeyMatch dateD ((st.pw.getD i wdef).subject.id) tk0 = true := by
                rw [taskKeyMatch_iff]
                have h1 : tk0.subjectId = (st.pw.getD i wdef).subject.id :=
                  congrArg Prod.fst hkey
                have h2 : tk0.date = dateD := congrArg Prod.snd hkey
                exact ⟨h2, h1⟩
              exact hnoany (List.any_eq_true.mpr ⟨tk0, h0, this⟩)
            rw [List.nodup_append]
            refine ⟨hst, List.nodup_singleton _, ?_⟩
            intro a ha hb
            simp only [List.map_cons, List.map_nil, List.mem_singleton] at hb
            subst hb
            exact hnotin ha
    · exact hst

theorem allocDay_cap_zero (maxM dateD : Nat) :
    ∀ (fuel : Nat) (st : DayState), st.assigned = [] →
      (allocDay 0 maxM dateD fuel st).tasks = st.tasks ∧
        (allocDay 0 maxM dateD fuel st).pw = st.pw := by
  intro fuel
  induction fuel with
  | zero => intro st h; exact ⟨rfl, rfl⟩
  | succ n ih =>
    intro st ha
    simp only [allocDay]
    split
    · split
      · exact ⟨rfl, rfl⟩
      · rename_i i rest hq
        split
        · exact ih { st with queue := rest } ha
        · rename_i hgate
          exfalso
          apply hgate
          simp [gateBlocked, ha]
    · exact ⟨rfl, rfl⟩


theorem getD_of_length_le : ∀ (l : List WorkItem) (i : Nat), l.length ≤ i →
    l.getD i wdef = wdef := by
  intro l
  induction l with
  | nil => intro i h; cases i <;> rfl
  | cons w rest ih =>
    intro i h
    cases i with
    | zero => simp at h
    | succ i =>
      rw [List.getD_cons_succ]
      exact ih i (by simpa using h)

theorem getD_subject_set (n : Nat) :
    ∀ (l : List WorkItem) (i j : Nat),
      ((l.set i ⟨(l.getD i wdef).subject, n⟩).getD j wdef).subject =
        (l.getD j wdef).subject := by
  intro l
  induction l with
  | nil => intro i j; cases i <;> cases j <;> rfl
  | cons w rest ih =>
    intro i j
    cases i with
    | zero =>
      cases j with
      | zero => rfl
      | succ j => rfl
    | succ i =>
      cases j with
      | zero => rfl
      | succ j =>
        rw [List.getD_cons_succ, List.set_cons_succ, List.getD_cons_succ,
          List.getD_cons_succ]
        exact ih i j

theorem mem_eligibleIdx (pw : List WorkItem) (d j : Nat) :
    j ∈ eligibleIdx pw d ↔ j < pw.length ∧
      d ≤ (pw.getD j wdef).subject.testDate ∧
      0 < (pw.getD j wdef).minutesNeeded := by
  simp [eligibleIdx, List.mem_filter, List.mem_range, and_assoc]

theorem nodup_eligibleIdx (pw : List WorkItem) (d : Nat) :
    (eligibleIdx pw d).Nodup :=
  (List.nodup_range _).filter _

theorem mem_sortQ (le : Nat → Nat → Bool) (l : List Nat) (j : Nat) :
    j ∈ sortQ le l ↔ j ∈ l := (sortQ_perm le l).mem_iff

theorem nodup_sortQ (le : Nat → Nat → Bool) (l : List Nat) (h : l.Nodup) :
    (sortQ le l).Nodup := ((sortQ_perm le l).nodup_iff).mpr h

theorem allocDay_deadline (cap maxM dateD : Nat) (subjL : List Subject) :
    ∀ (fuel : Nat) (st : DayState),
      st.pw.map (fun w => w.subject) = subjL →
      (∀ j ∈ st.queue, j < st.pw.length ∧
        dateD ≤ (st.pw.getD j wdef).subject.testDate) →
      (∀ tk ∈ st.tasks, tk.date = dateD →
        ∃ s ∈ subjL, tk.subjectId = s.id ∧ dateD ≤ s.testDate) →
      ∀ tk ∈ (allocDay cap maxM dateD fuel st).tasks, tk.date = dateD →
        ∃ s ∈ subjL, tk.subjectId = s.id ∧ dateD ≤ s.testDate := by
  intro fuel
  induction fuel with
  | zero => intro st hsub hqv htk; exact htk
  | succ n ih =>
    intro st hsub hqv htk
    simp only [allocDay]
    split
    · split
      · exact htk
      · rename_i i rest hq
        split
        · refine ih { st with queue := rest } hsub ?_ htk
          intro j hj
          exact hqv j (by rw [hq]; exact List.mem_cons_of_mem i hj)
        · have hiq : i ∈ st.queue := by rw [hq]; exact List.mem_cons_self _ _
          obtain ⟨hilen, hitd⟩ := hqv i hiq
          have hwsub : (st.pw.getD i wdef).subject ∈ subjL := by
            rw [← hsub]
            exact List.mem_map.mpr ⟨st.pw.getD i wdef, getD_mem st.pw i hilen, rfl⟩
          refine ih (allocStep maxM dateD st i rest) ?_ ?_ ?_
          · rw [allocStep_subjects]
            exact hsub
          · intro j hj
            rw [allocStep_queue] at hj
            have hj2 : j ∈ st.queue := by
              rw [hq]
              split at hj
              · exact List.mem_cons_of_mem i hj
              · rcases List.mem_append.mp hj with h3 | h3
                · exact List.mem_cons_of_mem i h3
                · rcases List.mem_singleton.mp h3 with rfl
                  exact List.mem_cons_self _ _
            obtain ⟨hjlen, hjtd⟩ := hqv j hj2
            constructor
            · rw [allocStep_pw, List.length_set]
              exact hjlen
            · rw [allocStep_pw, getD_subject_set]
              exact hjtd
          · intro tk htkm hdate
            rw [allocStep_tasks] at htkm
            split at htkm
            · rcases extendFirst_mem _ _ _ st.tasks tk htkm with h3 | h3
              · exact htk tk h3 hdate
              · exact ⟨(st.pw.getD i wdef).subject, hwsub, h3.2, hitd⟩
            · rcases List.mem_append.mp htkm with h3 | h3
              · exact htk tk h3 hdate
              · rcases List.mem_singleton.mp h3 with rfl
                exact ⟨(st.pw.getD i wdef).subject, hwsub, rfl, hitd⟩
    · exact htk

theorem allocDay_tasks_pos (cap maxM dateD : Nat) :
    ∀ (fuel : Nat) (st : DayState),
      st.queue.Nodup →
      (∀ j ∈ st.queue, 0 < (st.pw.getD j wdef).minutesNeeded) →
      (∀ tk ∈ st.tasks, 0 < tk.plannedMinutes) →
      ∀ tk ∈ (allocDay cap maxM dateD fuel st).tasks, 0 < tk.plannedMinutes := by
  intro fuel
  induction fuel with
  | zero => intro st hnd hqv htk; exact htk
  | succ n ih =>
    intro st hnd hqv htk
    simp only [allocDay]
    split
    · rename_i hlt
      split
      · exact htk
      · rename_i i rest hq
        rw [hq] at hnd
        have hirest : i ∉ rest := (List.nodup_cons.mp hnd).1
        have hrestnd : rest.Nodup := (List.nodup_cons.mp hnd).2
        split
        · refine ih { st with queue := rest } hrestnd ?_ htk
          intro j hj
          exact hqv j (by rw [hq]; exact List.mem_cons_of_mem i hj)
        · have hineed : 0 < (st.pw.getD i wdef).minutesNeeded :=
            hqv i (by rw [hq]; exact List.mem_cons_self _ _)
          have hilen : i < st.pw.length := by
            by_contra hc
            rw [getD_of_length_le st.pw i (by omega)] at hineed
            simp [wdef] at hineed
          have htpos : 0 < min 30 (min (maxM - st.alloc)
              ((st.pw.getD i wdef).minutesNeeded)) := by omega
          refine ih (allocStep maxM dateD st i rest) ?_ ?_ ?_
          · rw [allocStep_queue]
            split
            · exact hrestnd
            · rw [List.nodup_append]
              exact ⟨hrestnd, List.nodup_singleton _, by
                intro a ha hb
                rw [List.mem_singleton] at hb
                subst hb
                exact hirest ha⟩
          · intro j hj
            rw [allocStep_queue] at hj
            rw [allocStep_pw]
            split at hj
            · have hji : j ≠ i := fun hh => hirest (hh ▸ hj)
              rw [getD_set_ne _ st.pw i j hji]
              exact hqv j (by rw [hq]; exact List.mem_cons_of_mem i hj)
            · rename_i hrot
              rcases List.mem_append.mp hj with h3 | h3
              · have hji : j ≠ i := fun hh => hirest (hh ▸ h3)
                rw [getD_set_ne _ st.pw i j hji]
                exact hqv j (by rw [hq]; exact List.mem_cons_of_mem i h3)
              · rcases List.mem_singleton.mp h3 with rfl
                rw [getD_set_self _ st.pw j hilen]
                exact Nat.pos_of_ne_zero hrot
          · intro tk htkm
            rw [allocStep_tasks] at htkm
            split at htkm
            · obtain ⟨tk0, h0, _, _, _, _, hp⟩ :=
                extendFirst_shape _ _ _ st.tasks tk htkm
              have := htk tk0 h0
              rcases hp with hp | hp <;> omega
            · rcases List.mem_append.mp htkm with h3 | h3
              · exact htk tk h3
              · rcases List.mem_singleton.mp h3 with rfl
                exact htpos
    · exact htk

theorem allocDay_mult30 (cap maxM dateD : Nat) (hM : 30 ∣ maxM) :
    ∀ (fuel : Nat) (st : DayState),
      30 ∣ st.alloc →
      (∀ w ∈ st.pw, 30 ∣ w.minutesNeeded) →
      (∀ tk ∈ st.tasks, 30 ∣ tk.plannedMinutes) →
      (∀ tk ∈ (allocDay cap maxM dateD fuel st).tasks, 30 ∣ tk.plannedMinutes) ∧
      (∀ w ∈ (allocDay cap maxM dateD fuel st).pw, 30 ∣ w.minutesNeeded) := by
  intro fuel
  induction fuel with
  | zero => intro st _ hpw htk; exact ⟨htk, hpw⟩
  | succ n ih =>
    intro st halloc hpw htk
    simp only [allocDay]
    split
    · split
      · exact ⟨htk, hpw⟩
      · rename_i i rest hq
        split
        · exact ih { st with queue := rest } halloc hpw htk
        · have hwneed : 30 ∣ (st.pw.getD i wdef).minutesNeeded := by
            by_cases hlen : i < st.pw.length
            · exact hpw _ (getD_mem st.pw i hlen)
            · rw [getD_of_length_le st.pw i (by omega)]
              exact Dvd.intro 0 rfl
          have hT : 30 ∣ min 30 (min (maxM - st.alloc)
              ((st.pw.getD i wdef).minutesNeeded)) :=
            dvd_min _ _ _ (dvd_refl 30)
              (dvd_min _ _ _ (Nat.dvd_sub' hM halloc) hwneed)
          refine ih (allocStep maxM dateD st i rest) ?_ ?_ ?_
          · rw [allocStep_alloc]
            exact Nat.dvd_add halloc hT
          · intro w hw
            rw [allocStep_pw] at hw
            rcases List.mem_or_eq_of_mem_set hw with h3 | h3
            · exact hpw w h3
            · rw [h3]
              exact Nat.dvd_sub' hwneed hT
          · intro tk htkm
            rw [allocStep_tasks] at htkm
            split at htkm
            · obtain ⟨tk0, h0, _, _, _, _, hp⟩ :=
                extendFirst_shape _ _ _ st.tasks tk htkm
              rcases hp with hp | hp
              · rw [hp]; exact htk tk0 h0
              · rw [hp]; exact Nat.dvd_add (htk tk0 h0) hT
            · rcases List.mem_append.mp htkm with h3 | h3
              · exact htk tk h3
              · rcases List.mem_singleton.mp h3 with rfl
                exact hT
    · exact ⟨htk, hpw⟩

theorem allocStep_measure_lt (maxM dateD : Nat) (st : DayState) (i : Nat)
    (rest : List Nat) (hlt : st.alloc < maxM) (hq : st.queue = i :: rest) :
    dayMeasure maxM (allocStep maxM dateD st i rest) < dayMeasure maxM st := by
  rw [dayMeasure, dayMeasure, hq, allocStep_alloc, allocStep_queue]
  split
  · simp only [List.length_cons]
    omega
  · rename_i hrot
    simp only [List.length_append, List.length_cons, List.length_nil]
    have ht : 0 < min 30 (min (maxM - st.alloc)
        ((st.pw.getD i wdef).minutesNeeded)) := by
      rcases Nat.eq_zero_or_pos ((st.pw.getD i wdef).minutesNeeded) with h0 | h0
      · exfalso; apply hrot; omega
      · omega
    omega

theorem allocDay_succ_eq (cap maxM dateD : Nat) :
    ∀ (fuel : Nat) (st : DayState), dayMeasure maxM st < fuel →
      allocDay cap maxM dateD (fuel + 1) st = allocDay cap maxM dateD fuel st := by
  intro fuel
  induction fuel with
  | zero => intro st h; simp at h
  | succ n ih =>
    intro st hm
    conv_lhs => rw [allocDay]
    conv_rhs => rw [allocDay]
    split
    · rename_i hlt
      split
      · rfl
      · rename_i i rest hq
        split
        · refine ih { st with queue := rest } ?_
          have heq : dayMeasure maxM { st with queue := rest } =
              (maxM - st.alloc) + rest.length := rfl
          rw [heq]
          rw [dayMeasure, hq] at hm
          simp only [List.length_cons] at hm
          omega
        · refine ih (allocStep maxM dateD st i rest) ?_
          have := allocStep_measure_lt maxM dateD st i rest hlt hq
          omega
    · rfl


theorem allocDay_fuel_ge (cap maxM dateD : Nat) :
    ∀ (f1 f2 : Nat) (st : DayState), dayMeasure maxM st < f1 → f1 ≤ f2 →
      allocDay cap maxM dateD f1 st = allocDay cap maxM dateD f2 st := by
  intro f1 f2
  induction f2 with
  | zero =>
    intro st h1 h2
    have : f1 = 0 := by omega
    rw [this]
  | succ n ih =>
    intro st h1 h2
    rcases Nat.lt_or_ge f1 (n + 1) with hlt | hge
    · rw [ih st h1 (by omega), allocDay_succ_eq cap maxM dateD n st (by omega)]
    · have : f1 = n + 1 := by omega
      rw [this]


theorem mem_tasksOnDate (l : List DailyTask) (d : Nat) (tk : DailyTask) :
    tk ∈ tasksOnDate l d ↔ tk ∈ l ∧ tk.date = d := by
  simp [tasksOnDate, List.mem_filter]

theorem mem_sidFinsetOn (l : List DailyTask) (d x : Nat) :
    x ∈ sidFinsetOn l d ↔ ∃ tk ∈ l, tk.date = d ∧ tk.subjectId = x := by
  simp only [sidFinsetOn, List.mem_toFinset, List.mem_map]
  constructor
  · rintro ⟨tk, h1, h2⟩
    obtain ⟨h3, h4⟩ := (mem_tasksOnDate _ _ _).mp h1
    exact ⟨tk, h3, h4, h2⟩
  · rintro ⟨tk, h1, h2, h3⟩
    exact ⟨tk, (mem_tasksOnDate _ _ _).mpr ⟨h1, h2⟩, h3⟩

theorem runDay_tasks_eq (foc : List DailyTask) (settings : UserSettings)
    (d : Nat) (rs : RunState) :
    (runDay foc settings d rs).tasks =
      (allocDay settings.maxSubjectsPerDay (capacityMinutes settings d) d
        (capacityMinutes settings d +
          (sortQ (idxLe rs.pw) (eligibleIdx rs.pw d)).length + 1)
        ⟨rs.pw, sortQ (idxLe rs.pw) (eligibleIdx rs.pw d),
          initialAssigned foc d, rs.tasks, sumPlannedOn foc d, rs.nextId⟩).tasks := rfl

theorem runDay_pw_eq (foc : List DailyTask) (settings : UserSettings)
    (d : Nat) (rs : RunState) :
    (runDay foc settings d rs).pw =
      (allocDay settings.maxSubjectsPerDay (capacityMinutes settings d) d
        (capacityMinutes settings d +
          (sortQ (idxLe rs.pw) (eligibleIdx rs.pw d)).length + 1)
        ⟨rs.pw, sortQ (idxLe rs.pw) (eligibleIdx rs.pw d),
          initialAssigned foc d, rs.tasks, sumPlannedOn foc d, rs.nextId⟩).pw := rfl

theorem runDay_tasksOnDate_ne (foc : List DailyTask) (settings : UserSettings)
    (d : Nat) (rs : RunState) (d' : Nat) (hne : d' ≠ d) :
    tasksOnDate (runDay foc settings d rs).tasks d' =
      tasksOnDate rs.tasks d' := by
  rw [runDay_tasks_eq]
  exact allocDay_tasksOnDate_ne _ _ _ _ hne _ _

theorem runDay_sumPlannedOn (foc : List DailyTask) (settings : UserSettings)
    (d : Nat) (rs : RunState) :
    sumPlannedOn (runDay foc settings d rs).tasks d ≤
      sumPlannedOn rs.tasks d +
        (capacityMinutes settings d - sumPlannedOn foc d) := by
  rw [runDay_tasks_eq]
  have h1 := allocDay_sumPlannedOn settings.maxSubjectsPerDay
    (capacityMinutes settings d) d
    (capacityMinutes settings d +
      (sortQ (idxLe rs.pw) (eligibleIdx rs.pw d)).length + 1)
    ⟨rs.pw, sortQ (idxLe rs.pw) (eligibleIdx rs.pw d),
      initialAssigned foc d, rs.tasks, sumPlannedOn foc d, rs.nextId⟩
  have h2 := allocDay_alloc_le settings.maxSubjectsPerDay
    (capacityMinutes settings d) d
    (capacityMinutes settings d +
      (sortQ (idxLe rs.pw) (eligibleIdx rs.pw d)).length + 1)
    ⟨rs.pw, sortQ (idxLe rs.pw) (eligibleIdx rs.pw d),
      initialAssigned foc d, rs.tasks, sumPlannedOn foc d, rs.nextId⟩
  have h3 := allocDay_alloc_mono settings.maxSubjectsPerDay
    (capacityMinutes settings d) d
    (capacityMinutes settings d +
      (sortQ (idxLe rs.pw) (eligibleIdx rs.pw d)).length + 1)
    ⟨rs.pw, sortQ (idxLe rs.pw) (eligibleIdx rs.pw d),
      initialAssigned foc d, rs.tasks, sumPlannedOn foc d, rs.nextId⟩
  simp only at h1 h2 h3
  omega

theorem runDay_tasks_mem (foc : List DailyTask) (settings : UserSettings)
    (d : Nat) (rs : RunState) (tk : DailyTask) :
    tk ∈ (runDay foc settings d rs).tasks → tk.date = d ∨ tk ∈ rs.tasks := by
  rw [runDay_tasks_eq]
  exact allocDay_tasks_mem _ _ _ _ _ tk

theorem runDay_subjects_eq (foc : List DailyTask) (settings : UserSettings)
    (d : Nat) (rs : RunState) :
    (runDay foc settings d rs).pw.map (fun w => w.subject) =
      rs.pw.map (fun w => w.subject) := by
  rw [runDay_pw_eq]
  exact allocDay_subjects_eq _ _ _ _ _

theorem runDay_conservation (foc : List DailyTask) (settings : UserSettings)
    (d : Nat) (rs : RunState) (sid : Nat) :
    sumPlannedFor (runDay foc settings d rs).tasks sid +
        needFor (runDay foc settings d rs).pw sid =
      sumPlannedFor rs.tasks sid + needFor rs.pw sid := by
  rw [runDay_tasks_eq, runDay_pw_eq]
  exact allocDay_conservation _ _ _ _ _ sid

theorem runDay_flags (foc : List DailyTask) (settings : UserSettings)
    (d : Nat) (rs : RunState)
    (h : ∀ tk ∈ rs.tasks, tk.completed = false ∧ tk.isFixed = false) :
    ∀ tk ∈ (runDay foc settings d rs).tasks,
      tk.completed = false ∧ tk.isFixed = false := by
  rw [runDay_tasks_eq]
  exact allocDay_flags _ _ _ _ _ h

theorem runDay_keys_nodup (foc : List DailyTask) (settings : UserSettings)
    (d : Nat) (rs : RunState)
    (h : ((rs.tasks.map (fun tk => (tk.subjectId, tk.date))).Nodup)) :
    ((runDay foc settings d rs).tasks.map
      (fun tk => (tk.subjectId, tk.date))).Nodup := by
  rw [runDay_tasks_eq]
  exact allocDay_keys_nodup _ _ _ _ _ h

theorem runDay_deadline (foc : List DailyTask) (settings : UserSettings)
    (d : Nat) (rs : RunState) (h0 : tasksOnDate rs.tasks d = []) :
    ∀ tk ∈ (runDay foc settings d rs).tasks, tk ∈ rs.tasks ∨
      (tk.date = d ∧ ∃ s ∈ rs.pw.map (fun w => w.subject),
        tk.subjectId = s.id ∧ d ≤ s.testDate) := by
  intro tk htk
  rcases runDay_tasks_mem foc settings d rs tk htk with hdate | hmem
  · right
    refine ⟨hdate, ?_⟩
    rw [runDay_tasks_eq] at htk
    refine allocDay_deadline settings.maxSubjectsPerDay
      (capacityMinutes settings d) d (rs.pw.map (fun w => w.subject)) _ _
      rfl ?_ ?_ tk htk hdate
    · intro j hj
      have hj2 : j ∈ eligibleIdx rs.pw d := (mem_sortQ _ _ _).mp hj
      obtain ⟨hlen, htd, _⟩ := (mem_eligibleIdx rs.pw d j).mp hj2
      exact ⟨hlen, htd⟩
    · intro tk2 htk2 hdate2
      exfalso
      have : tk2 ∈ tasksOnDate rs.tasks d := (mem_tasksOnDate _ _ _).mpr ⟨htk2, hdate2⟩
      rw [h0] at this
      exact List.not_mem_nil tk2 this
  · exact Or.inl hmem

theorem runDay_tasks_pos (foc : List DailyTask) (settings : UserSettings)
    (d : Nat) (rs : RunState)
    (h : ∀ tk ∈ rs.tasks, 0 < tk.plannedMinutes) :
    ∀ tk ∈ (runDay foc settings d rs).tasks, 0 < tk.plannedMinutes := by
  rw [runDay_tasks_eq]
  refine allocDay_tasks_pos _ _ _ _ _ ?_ ?_ h
  · exact nodup_sortQ _ _ (nodup_eligibleIdx rs.pw d)
  · intro j hj
    have hj2 : j ∈ eligibleIdx rs.pw d := (mem_sortQ _ _ _).mp hj
    exact ((mem_eligibleIdx rs.pw d j).mp hj2).2.2

theorem dvd30_capacityMinutes (settings : UserSettings) (d : Nat) :
    30 ∣ capacityMinutes settings d := by
  rw [capacityMinutes]
  exact ⟨(if isWeekend d then settings.weekendHours else settings.weekdayHours) * 2,
    by ring⟩

theorem runDay_mult30 (foc : List DailyTask) (settings : UserSettings)
    (d : Nat) (rs : RunState) (hfoc : 30 ∣ sumPlannedOn foc d)
    (hpw : ∀ w ∈ rs.pw, 30 ∣ w.minutesNeeded)
    (htk : ∀ tk ∈ rs.tasks, 30 ∣ tk.plannedMinutes) :
    (∀ tk ∈ (runDay foc settings d rs).tasks, 30 ∣ tk.plannedMinutes) ∧
    (∀ w ∈ (runDay foc settings d rs).pw, 30 ∣ w.minutesNeeded) := by
  have h := allocDay_mult30 settings.maxSubjectsPerDay
    (capacityMinutes settings d) d (dvd30_capacityMinutes settings d)
    (capacityMinutes settings d +
      (sortQ (idxLe rs.pw) (eligibleIdx rs.pw d)).length + 1)
    ⟨rs.pw, sortQ (idxLe rs.pw) (eligibleIdx rs.pw d),
      initialAssigned foc d, rs.tasks, sumPlannedOn foc d, rs.nextId⟩
    hfoc hpw htk
  rw [runDay_tasks_eq, runDay_pw_eq]
  exact h

theorem runDay_distinct (foc : List DailyTask) (settings : UserSettings)
    (d : Nat) (rs : RunState) (h0 : tasksOnDate rs.tasks d = []) :
    (sidFinsetOn (runDay foc settings d rs).tasks d ∪ sidFinsetOn foc d).card ≤
      max (distinctSubjectCountOn foc d) settings.maxSubjectsPerDay := by
  set st0 : DayState := ⟨rs.pw, sortQ (idxLe rs.pw) (eligibleIdx rs.pw d),
    initialAssigned foc d, rs.tasks, sumPlannedOn foc d, rs.nextId⟩ with hst0
  set A := allocDay settings.maxSubjectsPerDay (capacityMinutes settings d) d
    (capacityMinutes settings d +
      (sortQ (idxLe rs.pw) (eligibleIdx rs.pw d)).length + 1) st0 with hA
  have htasks : (runDay foc settings d rs).tasks = A.tasks := rfl
  have hassigned : ∀ tk ∈ A.tasks, tk.date = d → tk.subjectId ∈ A.assigned := by
    refine allocDay_tasks_assigned _ _ _ _ st0 ?_
    intro tk htk hdate
    exfalso
    have : tk ∈ tasksOnDate rs.tasks d := (mem_tasksOnDate _ _ _).mpr ⟨htk, hdate⟩
    rw [h0] at this
    exact List.not_mem_nil tk this
  have hsub : sidFinsetOn (runDay foc settings d rs).tasks d ∪ sidFinsetOn foc d ⊆
      A.assigned.toFinset := by
    intro x hx
    rcases Finset.mem_union.mp hx with hx1 | hx1
    · rw [htasks] at hx1
      obtain ⟨tk, htk, hdate, hsid⟩ := (mem_sidFinsetOn _ _ _).mp hx1
      rw [List.mem_toFinset, ← hsid]
      exact hassigned tk htk hdate
    · rw [← initialAssigned_toFinset, List.mem_toFinset] at hx1
      rw [List.mem_toFinset]
      exact allocDay_assigned_sub _ _ _ _ st0 x hx1
  have hcard1 : A.assigned.length ≤
      max (initialAssigned foc d).length settings.maxSubjectsPerDay :=
    allocDay_assigned_card _ _ _ _ st0
  calc (sidFinsetOn (runDay foc settings d rs).tasks d ∪ sidFinsetOn foc d).card
      ≤ A.assigned.toFinset.card := Finset.card_le_card hsub
    _ ≤ A.assigned.length := List.toFinset_card_le _
    _ ≤ max (initialAssigned foc d).length settings.maxSubjectsPerDay := hcard1
    _ = max (distinctSubjectCountOn foc d) settings.maxSubjectsPerDay := by
        rw [length_initialAssigned]

theorem runDay_cap_zero (settings : UserSettings) (d : Nat) (rs : RunState)
    (hcap : settings.maxSubjectsPerDay = 0) :
    (runDay [] settings d rs).tasks = rs.tasks ∧
      (runDay [] settings d rs).pw = rs.pw := by
  rw [runDay_tasks_eq, runDay_pw_eq, hcap]
  exact allocDay_cap_zero _ _ _ _ rfl


theorem sumPlannedOn_congr (l1 l2 : List DailyTask) (d : Nat)
    (h : tasksOnDate l1 d = tasksOnDate l2 d) :
    sumPlannedOn l1 d = sumPlannedOn l2 d := by
  rw [sumPlannedOn, sumPlannedOn, h]

theorem sidFinsetOn_congr (l1 l2 : List DailyTask) (d : Nat)
    (h : tasksOnDate l1 d = tasksOnDate l2 d) :
    sidFinsetOn l1 d = sidFinsetOn l2 d := by
  rw [sidFinsetOn, sidFinsetOn, h]

theorem dvd_sumPlannedOn (foc : List DailyTask) (d : Nat)
    (h : ∀ tk ∈ foc, 30 ∣ tk.plannedMinutes) : 30 ∣ sumPlannedOn foc d := by
  rw [sumPlannedOn]
  refine List.dvd_sum ?_
  intro x hx
  obtain ⟨tk, htk, rfl⟩ := List.mem_map.mp hx
  exact h tk ((mem_tasksOnDate _ _ _).mp htk).1

theorem allocLoop_sum_on (foc : List DailyTask) (settings : UserSettings) :
    ∀ (fuel d : Nat) (rs : RunState) (d' : Nat),
      (∀ tk ∈ rs.tasks, tk.date < d) →
      sumPlannedOn (allocLoop foc settings fuel d rs).tasks d' ≤
        max (sumPlannedOn rs.tasks d')
          (capacityMinutes settings d' - sumPlannedOn foc d') := by
  intro fuel
  induction fuel with
  | zero => intro d rs d' hinv; exact le_max_left _ _
  | succ n ih =>
    intro d rs d' hinv
    simp only [allocLoop]
    split
    · have hinv2 : ∀ tk ∈ (runDay foc settings d rs).tasks, tk.date < d + 1 := by
        intro tk htk
        rcases runDay_tasks_mem foc settings d rs tk htk with h1 | h1
        · omega
        · exact Nat.lt_succ_of_lt (hinv tk h1)
      by_cases hd : d' = d
      · subst hd
        have h0 : sumPlannedOn rs.tasks d' = 0 := sumPlannedOn_nil_of_lt _ _ hinv
        have hday : sumPlannedOn (runDay foc settings d' rs).tasks d' ≤
            capacityMinutes settings d' - sumPlannedOn foc d' := by
          have := runDay_sumPlannedOn foc settings d' rs
          omega
        have := ih (d' + 1) (runDay foc settings d' rs) d' hinv2
        omega
      · have hframe : sumPlannedOn (runDay foc settings d rs).tasks d' =
            sumPlannedOn rs.tasks d' :=
          sumPlannedOn_congr _ _ _ (runDay_tasksOnDate_ne foc settings d rs d' hd)
        have := ih (d + 1) (runDay foc settings d rs) d' hinv2
        omega
    · exact le_max_left _ _

theorem allocLoop_deadline (foc : List DailyTask) (settings : UserSettings) :
    ∀ (fuel d : Nat) (rs : RunState),
      (∀ tk ∈ rs.tasks, tk.date < d) →
      ∀ tk ∈ (allocLoop foc settings fuel d rs).tasks, tk ∈ rs.tasks ∨
        (d ≤ tk.date ∧ ∃ s ∈ rs.pw.map (fun w => w.subject),
          tk.subjectId = s.id ∧ tk.date ≤ s.testDate) := by
  intro fuel
  induction fuel with
  | zero => intro d rs hinv tk htk; exact Or.inl htk
  | succ n ih =>
    intro d rs hinv tk htk
    simp only [allocLoop] at htk
    split at htk
    · have hinv2 : ∀ tk ∈ (runDay foc settings d rs).tasks, tk.date < d + 1 := by
        intro tk2 htk2
        rcases runDay_tasks_mem foc settings d rs tk2 htk2 with h1 | h1
        · omega
        · exact Nat.lt_succ_of_lt (hinv tk2 h1)
      have h0 : tasksOnDate rs.tasks d = [] := tasksOnDate_nil_of_lt _ _ hinv
      rcases ih (d + 1) (runDay foc settings d rs) hinv2 tk htk with h1 | h1
      · rcases runDay_deadline foc settings d rs h0 tk h1 with h2 | h2
        · exact Or.inl h2
        · obtain ⟨hdate, s, hs, hsid, htd⟩ := h2
          exact Or.inr ⟨Nat.le_of_eq hdate.symm, s, hs, hsid, hdate ▸ htd⟩
      · obtain ⟨hdate, s, hs, hsid, htd⟩ := h1
        rw [runDay_subjects_eq] at hs
        exact Or.inr ⟨by omega, s, hs, hsid, htd⟩
    · exact Or.inl htk

theorem allocLoop_conservation (foc : List DailyTask) (settings : UserSettings) :
    ∀ (fuel d : Nat) (rs : RunState) (sid : Nat),
      sumPlannedFor (allocLoop foc settings fuel d rs).tasks sid +
          needFor (allocLoop foc settings fuel d rs).pw sid =
        sumPlannedFor rs.tasks sid + needFor rs.pw sid := by
  intro fuel
  induction fuel with
  | zero => intro d rs sid; rfl
  | succ n ih =>
    intro d rs sid
    simp only [allocLoop]
    split
    · rw [ih (d + 1) (runDay foc settings d rs) sid]
      exact runDay_conservation foc settings d rs sid
    · rfl

theorem allocLoop_flags (foc : List DailyTask) (settings : UserSettings) :
    ∀ (fuel d : Nat) (rs : RunState),
      (∀ tk ∈ rs.tasks, tk.completed = false ∧ tk.isFixed = false) →
      ∀ tk ∈ (allocLoop foc settings fuel d rs).tasks,
        tk.completed = false ∧ tk.isFixed = false := by
  intro fuel
  induction fuel with
  | zero => intro d rs h; exact h
  | succ n ih =>
    intro d rs h
    simp only [allocLoop]
    split
    · exact ih (d + 1) (runDay foc settings d rs) (runDay_flags foc settings d rs h)
    · exact h

theorem allocLoop_keys_nodup (foc : List DailyTask) (settings : UserSettings) :
    ∀ (fuel d : Nat) (rs : RunState),
      ((rs.tasks.map (fun tk => (tk.subjectId, tk.date))).Nodup) →
      ((allocLoop foc settings fuel d rs).tasks.map
        (fun tk => (tk.subjectId, tk.date))).Nodup := by
  intro fuel
  induction fuel with
  | zero => intro d rs h; exact h
  | succ n ih =>
    intro d rs h
    simp only [allocLoop]
    split
    · exact ih (d + 1) (runDay foc settings d rs)
        (runDay_keys_nodup foc settings d rs h)
    · exact h

theorem allocLoop_tasks_pos (foc : List DailyTask) (settings : UserSettings) :
    ∀ (fuel d : Nat) (rs : RunState),
      (∀ tk ∈ rs.tasks, 0 < tk.plannedMinutes) →
      ∀ tk ∈ (allocLoop foc settings fuel d rs).tasks, 0 < tk.plannedMinutes := by
  intro fuel
  induction fuel with
  | zero => intro d rs h; exact h
  | succ n ih =>
    intro d rs h
    simp only [allocLoop]
    split
    · exact ih (d + 1) (runDay foc settings d rs)
        (runDay_tasks_pos foc settings d rs h)
    · exact h

theorem allocLoop_mult30 (foc : List DailyTask) (settings : UserSettings)
    (hfoc : ∀ tk ∈ foc, 30 ∣ tk.plannedMinutes) :
    ∀ (fuel d : Nat) (rs : RunState),
      (∀ w ∈ rs.pw, 30 ∣ w.minutesNeeded) →
      (∀ tk ∈ rs.tasks, 30 ∣ tk.plannedMinutes) →
      ∀ tk ∈ (allocLoop foc settings fuel d rs).tasks, 30 ∣ tk.plannedMinutes := by
  intro fuel
  induction fuel with
  | zero => intro d rs hpw htk; exact htk
  | succ n ih =>
    intro d rs hpw htk
    simp only [allocLoop]
    split
    · obtain ⟨h1, h2⟩ := runDay_mult30 foc settings d rs
        (dvd_sumPlannedOn foc d hfoc) hpw htk
      exact ih (d + 1) (runDay foc settings d rs) h2 h1
    · exact htk

theorem allocLoop_distinct (foc : List DailyTask) (settings : UserSettings) :
    ∀ (fuel d : Nat) (rs : RunState) (d' : Nat),
      (∀ tk ∈ rs.tasks, tk.date < d) →
      (sidFinsetOn (allocLoop foc settings fuel d rs).tasks d' ∪
        sidFinsetOn foc d').card ≤
        max (sidFinsetOn rs.tasks d' ∪ sidFinsetOn foc d').card
          settings.maxSubjectsPerDay := by
  intro fuel
  induction fuel with
  | zero => intro d rs d' hinv; exact le_max_left _ _
  | succ n ih =>
    intro d rs d' hinv
    simp only [allocLoop]
    split
    · have hinv2 : ∀ tk ∈ (runDay foc settings d rs).tasks, tk.date < d + 1 := by
        intro tk htk
        rcases runDay_tasks_mem foc settings d rs tk htk with h1 | h1
        · omega
        · exact Nat.lt_succ_of_lt (hinv tk h1)
      by_cases hd : d' = d
      · subst hd
        have h0 : tasksOnDate rs.tasks d' = [] := tasksOnDate_nil_of_lt _ _ hinv
        have hempty : sidFinsetOn rs.tasks d' = ∅ := sidFinsetOn_nil_of_lt _ _ hinv
        have hday := runDay_distinct foc settings d' rs h0
        have hih := ih (d' + 1) (runDay foc settings d' rs) d' hinv2
        have hcap : (sidFinsetOn (runDay foc settings d' rs).tasks d' ∪
            sidFinsetOn foc d').card ≤
            max (distinctSubjectCountOn foc d') settings.maxSubjectsPerDay := hday
        have hsub2 : sidFinsetOn (runDay foc settings d' rs).tasks d' ∪
            sidFinsetOn foc d' ⊇ sidFinsetOn (runDay foc settings d' rs).tasks d' ∪
            sidFinsetOn foc d' := Finset.Subset.refl _
        rw [hempty, Finset.empty_union]
        rw [distinctSubjectCountOn] at hcap
        have hle2 : (sidFinsetOn (runDay foc settings d' rs).tasks d' ∪
            sidFinsetOn foc d').card ≥ (sidFinsetOn foc d').card :=
          Finset.card_le_card (Finset.subset_union_right)
        omega
      · have hframe : sidFinsetOn (runDay foc settings d rs).tasks d' =
            sidFinsetOn rs.tasks d' :=
          sidFinsetOn_congr _ _ _ (runDay_tasksOnDate_ne foc settings d rs d' hd)
        have := ih (d + 1) (runDay foc settings d rs) d' hinv2
        rw [hframe] at this
        exact this
    · exact le_max_left _ _

theorem allocLoop_cap_zero (settings : UserSettings)
    (hcap : settings.maxSubjectsPerDay = 0) :
    ∀ (fuel d : Nat) (rs : RunState),
      (allocLoop [] settings fuel d rs).tasks = rs.tasks := by
  intro fuel
  induction fuel with
  | zero => intro d rs; rfl
  | succ n ih =>
    intro d rs
    simp only [allocLoop]
    split
    · rw [ih (d + 1) (runDay [] settings d rs)]
      exact (runDay_cap_zero settings d rs hcap).1
    · rfl


theorem needFor_zero : ∀ (pw : List WorkItem) (sid : Nat),
    (∀ w ∈ pw, w.subject.id ≠ sid) → needFor pw sid = 0 := by
  intro pw
  induction pw with
  | nil => intro sid h; rfl
  | cons w rest ih =>
    intro sid h
    rw [needFor_cons, if_neg (h w (List.mem_cons_self _ _)),
      ih sid (fun w2 hw2 => h w2 (List.mem_cons_of_mem w hw2))]

theorem mem_initialPendingWork (subjects : List Subject) (foc : List DailyTask)
    (w : WorkItem) (h : w ∈ initialPendingWork subjects foc) :
    w.subject ∈ subjects ∧ 0 < w.minutesNeeded ∧
      w.minutesNeeded =
        calculateTotalHoursNeeded w.subject.difficulty * 60 -
          allocatedMins foc w.subject.id := by
  rw [initialPendingWork] at h
  obtain ⟨hmem, hpos⟩ := List.mem_filter.mp h
  obtain ⟨s, hs, rfl⟩ := List.mem_map.mp hmem
  refine ⟨hs, by simpa using hpos, rfl⟩

theorem mem_initialPendingWork_subject (subjects : List Subject)
    (foc : List DailyTask) (s : Subject)
    (h : s ∈ (initialPendingWork subjects foc).map (fun w => w.subject)) :
    s ∈ subjects := by
  obtain ⟨w, hw, rfl⟩ := List.mem_map.mp h
  exact (mem_initialPendingWork subjects foc w hw).1

theorem needFor_initialPendingWork (foc : List DailyTask) :
    ∀ (subjects : List Subject) (s : Subject),
      (subjects.map (fun s => s.id)).Nodup → s ∈ subjects →
      needFor (initialPendingWork subjects foc) s.id =
        calculateTotalHoursNeeded s.difficulty * 60 - allocatedMins foc s.id := by
  intro subjects
  induction subjects with
  | nil => intro s _ hmem; simp at hmem
  | cons hd tl ih =>
    intro s hnd hmem
    have hnd2 : (tl.map (fun s => s.id)).Nodup := (List.nodup_cons.mp (by simpa using hnd)).2
    have hhd : hd.id ∉ tl.map (fun s => s.id) := (List.nodup_cons.mp (by simpa using hnd)).1
    rw [initialPendingWork, List.map_cons, List.filter_cons]
    rcases List.mem_cons.mp hmem with rfl | hmemtl
    · have hzero : needFor ((tl.map (fun s2 =>
          ({ subject := s2, minutesNeeded := calculateTotalHoursNeeded s2.difficulty * 60 -
            allocatedMins foc s2.id } : WorkItem))).filter
          (fun w => decide (0 < w.minutesNeeded))) s.id = 0 := by
        refine needFor_zero _ _ ?_
        intro w hw
        obtain ⟨hw2, _⟩ := List.mem_filter.mp hw
        obtain ⟨s2, hs2, rfl⟩ := List.mem_map.mp hw2
        intro hid
        exact hhd (List.mem_map.mpr ⟨s2, hs2, hid⟩)
      split
      · rw [needFor_cons, if_pos rfl, hzero]
        show calculateTotalHoursNeeded s.difficulty * 60 - allocatedMins foc s.id + 0 =
          calculateTotalHoursNeeded s.difficulty * 60 - allocatedMins foc s.id
        omega
      · rename_i hneg
        simp only [decide_eq_true_eq, Nat.not_lt, Nat.le_zero] at hneg
        rw [hzero, hneg]
    · have hne : hd.id ≠ s.id := by
        intro hh
        exact hhd (List.mem_map.mpr ⟨s, hmemtl, hh.symm⟩)
      have hihres := ih s hnd2 hmemtl
      rw [initialPendingWork] at hihres
      split
      · rw [needFor_cons, if_neg hne]
        simpa using hihres
      · simpa using hihres


theorem runAllocator_eq (subjects : List Subject) (schedule : List DailyTask)
    (settings : UserSettings) (today : Nat) :
    runAllocator subjects schedule settings today =
      allocLoop (schedule.filter isFixedOrCompleted) settings 365 today
        ⟨initialPendingWork subjects (schedule.filter isFixedOrCompleted),
          [], 0⟩ := rfl

theorem generateSchedule_flags (subjects : List Subject)
    (schedule : List DailyTask) (settings : UserSettings) (today : Nat) :
    ∀ tk ∈ generateSchedule subjects schedule settings today,
      isFixedOrCompleted tk = false := by
  intro tk htk
  rw [generateSchedule, runAllocator_eq] at htk
  obtain ⟨hc, hf⟩ := allocLoop_flags (schedule.filter isFixedOrCompleted)
    settings 365 today
    ⟨initialPendingWork subjects (schedule.filter isFixedOrCompleted), [], 0⟩
    (by intro tk2 h2; exact absurd h2 (List.not_mem_nil tk2)) tk htk
  rw [isFixedOrCompleted, hc, hf]
  rfl

theorem filter_generateSchedule (subjects : List Subject)
    (schedule : List DailyTask) (settings : UserSettings) (today : Nat) :
    (generateSchedule subjects schedule settings today).filter
      isFixedOrCompleted = [] := by
  rw [List.filter_eq_nil_iff]
  intro tk htk h
  rw [generateSchedule_flags subjects schedule settings today tk htk] at h
  exact Bool.false_ne_true h

theorem generateSchedule_congr (subjects : List Subject)
    (settings : UserSettings) (today : Nat) (s1 s2 : List DailyTask)
    (h : s1.filter isFixedOrCompleted = s2.filter isFixedOrCompleted) :
    generateSchedule subjects s1 settings today =
      generateSchedule subjects s2 settings today := by
  rw [generateSchedule, generateSchedule, runAllocator_eq, runAllocator_eq, h]

theorem filter_mergedSchedule (subjects : List Subject)
    (schedule : List DailyTask) (settings : UserSettings) (today : Nat) :
    (mergedSchedule subjects schedule settings today).filter
      isFixedOrCompleted = schedule.filter isFixedOrCompleted := by
  rw [mergedSchedule]
  split
  · rfl
  · rw [List.filter_append, filter_generateSchedule, List.append_nil,
      List.filter_filter]
    simp [Bool.and_self]

theorem dvd_allocatedMins (foc : List DailyTask) (sid : Nat)
    (h : ∀ tk ∈ foc, 30 ∣ tk.plannedMinutes ∧ 30 ∣ tk.actualMinutes) :
    30 ∣ allocatedMins foc sid := by
  rw [allocatedMins]
  refine List.dvd_sum ?_
  intro x hx
  obtain ⟨tk, htk, rfl⟩ := List.mem_map.mp hx
  obtain ⟨h1, h2⟩ := h tk (List.mem_filter.mp htk).1
  rw [countedMinutes]
  split
  · exact h2
  · exact h1


/-!
## Claim theorems

One theorem (plus counterexample and witness, where required) per claim of
the specification.
-/

/-- Claim C1 (counterexample): the claim as stated is false.  With positive
hour settings (1/1/1) and one subject, a preserved fixed task of 1000
planned minutes on day 0 survives the merge, so the summed planned minutes
on day 0 (1000) exceed that day's capacity (60 minutes).  The allocator only
counts preserved tasks against capacity; it never trims them. -/
theorem C1_capacity_counterexample :
    ¬ (sumPlannedOn
        (([⟨50, 1, 0, 1000, false, 0, true⟩] : List DailyTask).filter
            isFixedOrCompleted ++
          generateSchedule [⟨1, 1, 30⟩] [⟨50, 1, 0, 1000, false, 0, true⟩]
            ⟨1, 1, 1⟩ 0) 0 ≤
      capacityMinutes ⟨1, 1, 1⟩ 0) := by decide

/-- Claim C1 (amended): for every calendar date, the sum of plannedMinutes
over all tasks in the schedule produced by generateSchedule (newly generated
plus preserved) on that date never exceeds the maximum of that day's
capacity (weekend/weekday hours × 60) and the planned minutes already
carried by the preserved tasks on that date; in particular the original
bound holds on every date whose preserved tasks fit within capacity. -/
theorem C1_capacity_amended (subjects : List Subject)
    (schedule : List DailyTask) (settings : UserSettings) (today d : Nat) :
    sumPlannedOn (schedule.filter isFixedOrCompleted ++
        generateSchedule subjects schedule settings today) d ≤
      max (capacityMinutes settings d)
        (sumPlannedOn (schedule.filter isFixedOrCompleted) d) := by
  rw [sumPlannedOn_append, generateSchedule, runAllocator_eq]
  have h := allocLoop_sum_on (schedule.filter isFixedOrCompleted) settings
    365 today
    ⟨initialPendingWork subjects (schedule.filter isFixedOrCompleted), [], 0⟩
    d (by intro tk h2; exact absurd h2 (List.not_mem_nil tk))
  have h0 : sumPlannedOn
      ((⟨initialPendingWork subjects (schedule.filter isFixedOrCompleted),
        [], 0⟩ : RunState)).tasks d = 0 := rfl
  omega

/-- Claim C2 (counterexample): the claim as stated is false.  With
maxSubjectsPerDay = 1, two subjects whose workload is already covered, and
preserved fixed tasks of both subjects on day 0, the merged schedule keeps
both preserved tasks, so two distinct subjects sit on day 0 even though the
cap is 1.  The cap-gate only limits newly started subjects. -/
theorem C2_subject_cap_counterexample :
    ¬ (distinctSubjectCountOn
        (([⟨50, 1, 0, 200, false, 0, true⟩, ⟨51, 2, 0, 200, false, 0, true⟩] :
            List DailyTask).filter isFixedOrCompleted ++
          generateSchedule [⟨1, 1, 30⟩, ⟨2, 1, 30⟩]
            [⟨50, 1, 0, 200, false, 0, true⟩, ⟨51, 2, 0, 200, false, 0, true⟩]
            ⟨1, 1, 1⟩ 0) 0 ≤
      (1 : Nat)) := by decide

/-- Claim C2 (amended): for every calendar date, the number of distinct
subject ids having at least one task (newly generated or preserved) on that
date never exceeds the maximum of settings.maxSubjectsPerDay and the number
of distinct subjects already present among the preserved tasks on that
date; in particular the original cap holds on every date whose preserved
tasks respect it. -/
theorem C2_subject_cap_amended (subjects : List Subject)
    (schedule : List DailyTask) (settings : UserSettings) (today d : Nat) :
    distinctSubjectCountOn (schedule.filter isFixedOrCompleted ++
        generateSchedule subjects schedule settings today) d ≤
      max settings.maxSubjectsPerDay
        (distinctSubjectCountOn (schedule.filter isFixedOrCompleted) d) := by
  rw [distinctSubjectCountOn, distinctSubjectCountOn, sidFinsetOn_append,
    generateSchedule, runAllocator_eq]
  have h := allocLoop_distinct (schedule.filter isFixedOrCompleted) settings
    365 today
    ⟨initialPendingWork subjects (schedule.filter isFixedOrCompleted), [], 0⟩
    d (by intro tk h2; exact absurd h2 (List.not_mem_nil tk))
  have h0 : sidFinsetOn
      ((⟨initialPendingWork subjects (schedule.filter isFixedOrCompleted),
        [], 0⟩ : RunState)).tasks d = ∅ := by
    rw [show ((⟨initialPendingWork subjects
      (schedule.filter isFixedOrCompleted), [], 0⟩ : RunState)).tasks =
      ([] : List DailyTask) from rfl]
    rfl
  rw [h0, Finset.empty_union] at h
  rw [Finset.union_comm]
  omega

/-- Claim C3 (confirmed): assuming pairwise-distinct subject ids (the spec's
data-model invariant), every task newly generated for a subject lies between
the run's anchor date and that subject's test date (inclusive), and a
subject whose test date is before today receives no newly generated task at
all. -/
theorem C3_deadline (subjects : List Subject) (schedule : List DailyTask)
    (settings : UserSettings) (today : Nat) (s : Subject)
    (hnd : (subjects.map (fun s => s.id)).Nodup) (hs : s ∈ subjects) :
    (∀ tk ∈ generateSchedule subjects schedule settings today,
      tk.subjectId = s.id → today ≤ tk.date ∧ tk.date ≤ s.testDate) ∧
    (s.testDate < today →
      ∀ tk ∈ generateSchedule subjects schedule settings today,
        tk.subjectId ≠ s.id) := by
  have hmain : ∀ tk ∈ generateSchedule subjects schedule settings today,
      tk.subjectId = s.id → today ≤ tk.date ∧ tk.date ≤ s.testDate := by
    intro tk htk hsid
    rw [generateSchedule, runAllocator_eq] at htk
    rcases allocLoop_deadline (schedule.filter isFixedOrCompleted) settings
      365 today
      ⟨initialPendingWork subjects (schedule.filter isFixedOrCompleted),
        [], 0⟩
      (by intro tk2 h2; exact absurd h2 (List.not_mem_nil tk2)) tk htk
      with h1 | h1
    · exact absurd h1 (List.not_mem_nil tk)
    · obtain ⟨hd, s2, hs2, hsid2, htd⟩ := h1
      have hsubj : s2 ∈ subjects := mem_initialPendingWork_subject _ _ s2 hs2
      have heq : s2 = s := by
        refine List.inj_on_of_nodup_map hnd hsubj hs ?_
        show s2.id = s.id
        rw [← hsid2]
        exact hsid
      exact ⟨hd, heq ▸ htd⟩
  refine ⟨hmain, ?_⟩
  intro hlt tk htk hsid
  obtain ⟨h1, h2⟩ := hmain tk htk hsid
  omega

/-- Claim C3 (witness): a concrete subject whose test date (day 2) is before
the anchor date (day 3) receives no newly generated task. -/
theorem C3_deadline_witness :
    (∀ tk ∈ generateSchedule [⟨1, 1, 2⟩] [] ⟨2, 5, 3⟩ 3,
      tk.subjectId = 1 → 3 ≤ tk.date ∧ tk.date ≤ 2) ∧
    (∀ tk ∈ generateSchedule [⟨1, 1, 2⟩] [] ⟨2, 5, 3⟩ 3,
      tk.subjectId ≠ 1) :=
  ⟨(C3_deadline [⟨1, 1, 2⟩] [] ⟨2, 5, 3⟩ 3 ⟨1, 1, 2⟩ (by decide)
      (by decide)).1,
    (C3_deadline [⟨1, 1, 2⟩] [] ⟨2, 5, 3⟩ 3 ⟨1, 1, 2⟩ (by decide)
      (by decide)).2 (by decide)⟩

/-- Claim C4 (counterexample): the claim as stated is false.  A subject of
difficulty 1 (180 required minutes) with a preserved completed task of 300
actual minutes has total attributed minutes 300 > 180: the allocator floors
remaining need at 0 but never claws back over-allocation, so the "never
exceeds" half of the claim fails. -/
theorem C4_conservation_counterexample :
    ¬ (allocatedMins (([⟨50, 1, 0, 60, true, 300, false⟩] :
          List DailyTask).filter isFixedOrCompleted) 1 +
        sumPlannedFor (generateSchedule [⟨1, 1, 30⟩]
          [⟨50, 1, 0, 60, true, 300, false⟩] ⟨2, 5, 3⟩ 0) 1 ≤
      1 * 180) := by decide

/-- Claim C4 (amended): assuming pairwise-distinct subject ids, a subject's
attributed minutes (actualMinutes for completed preserved tasks,
plannedMinutes for other preserved tasks, plus plannedMinutes of its newly
generated tasks) never exceed the maximum of difficulty × 180 and the
preserved allocation itself; and whenever the subject's remaining need was
positive and reaches 0 during the run, the attributed minutes equal exactly
difficulty × 180. -/
theorem C4_conservation_amended (subjects : List Subject)
    (schedule : List DailyTask) (settings : UserSettings) (today : Nat)
    (s : Subject) (hnd : (subjects.map (fun s => s.id)).Nodup)
    (hs : s ∈ subjects) :
    (allocatedMins (schedule.filter isFixedOrCompleted) s.id +
        sumPlannedFor (generateSchedule subjects schedule settings today)
          s.id ≤
      max (s.difficulty * 180)
        (allocatedMins (schedule.filter isFixedOrCompleted) s.id)) ∧
    (needFor (finalPendingWork subjects schedule settings today) s.id = 0 →
      0 < s.difficulty * 180 -
        allocatedMins (schedule.filter isFixedOrCompleted) s.id →
      allocatedMins (schedule.filter isFixedOrCompleted) s.id +
          sumPlannedFor (generateSchedule subjects schedule settings today)
            s.id =
        s.difficulty * 180) := by
  have hcons := allocLoop_conservation (schedule.filter isFixedOrCompleted)
    settings 365 today
    ⟨initialPendingWork subjects (schedule.filter isFixedOrCompleted), [], 0⟩
    s.id
  have hneed0 := needFor_initialPendingWork
    (schedule.filter isFixedOrCompleted) subjects s hnd hs
  have hT : calculateTotalHoursNeeded s.difficulty * 60 =
      s.difficulty * 180 := by
    rw [calculateTotalHoursNeeded]
    ring
  have e1 : sumPlannedFor
      ((⟨initialPendingWork subjects (schedule.filter isFixedOrCompleted),
        [], 0⟩ : RunState)).tasks s.id = 0 := rfl
  have e2 : needFor
      ((⟨initialPendingWork subjects (schedule.filter isFixedOrCompleted),
        [], 0⟩ : RunState)).pw s.id =
      needFor (initialPendingWork subjects
        (schedule.filter isFixedOrCompleted)) s.id := rfl
  rw [e1, e2, hneed0] at hcons
  rw [generateSchedule, finalPendingWork, runAllocator_eq]
  constructor
  · omega
  · intro h0 hpos
    omega

/-- Claim C4 (witness): a concrete run (one subject, difficulty 1, no
preserved tasks) whose remaining need reaches 0; the attributed minutes
equal exactly 1 × 180. -/
theorem C4_conservation_witness :
    allocatedMins (([] : List DailyTask).filter isFixedOrCompleted) 1 +
        sumPlannedFor (generateSchedule [⟨1, 1, 10⟩] [] ⟨2, 5, 3⟩ 0) 1 =
      1 * 180 :=
  (C4_conservation_amended [⟨1, 1, 10⟩] [] ⟨2, 5, 3⟩ 0 ⟨1, 1, 10⟩
    (by decide) (by decide)).2 (by decide) (by decide)

/-- Claim C5 (confirmed): running generateSchedule a second time on the
schedule produced by a first run (same subjects, settings and anchor date,
no completions in between) generates the same new-task set: the second run
drops the first run's auto tasks (none are fixed or completed), recomputes
the same pending work from the same preserved set, and replays the same
deterministic allocation.  Task ids are modelled by the deterministic fresh
counter standing for uuid(), so the task lists are equal outright. -/
theorem C5_idempotent (subjects : List Subject) (schedule : List DailyTask)
    (settings : UserSettings) (today : Nat) :
    generateSchedule subjects
        (mergedSchedule subjects schedule settings today) settings today =
      generateSchedule subjects schedule settings today :=
  generateSchedule_congr subjects settings today _ _
    (filter_mergedSchedule subjects schedule settings today)


/-- Claim C6 (counterexample): the claim as stated is false.  A subject with
a preserved fixed 30-minute task on day 4 still needs minutes, so the
allocator (whose duplicate check only searches the new-task accumulator)
creates a second task for the same (subject, date) pair; the merged
schedule then holds two tasks keyed (1, 4). -/
theorem C6_unique_counterexample :
    ¬ ((mergedSchedule [⟨1, 1, 30⟩] [⟨50, 1, 4, 30, false, 0, true⟩]
        ⟨2, 5, 3⟩ 4).map (fun tk => (tk.subjectId, tk.date))).Nodup := by
  decide

/-- Claim C6 (amended): among the newly generated tasks of one run there is
at most one task per (subjectId, date) pair — the allocator extends an
existing entry instead of duplicating it.  The merged schedule, however,
can pair a preserved task with a new task of the same (subject, date). -/
theorem C6_unique_amended (subjects : List Subject)
    (schedule : List DailyTask) (settings : UserSettings) (today : Nat) :
    ((generateSchedule subjects schedule settings today).map
      (fun tk => (tk.subjectId, tk.date))).Nodup := by
  rw [generateSchedule, runAllocator_eq]
  refine allocLoop_keys_nodup (schedule.filter isFixedOrCompleted) settings
    365 today
    ⟨initialPendingWork subjects (schedule.filter isFixedOrCompleted), [], 0⟩
    ?_
  exact List.nodup_nil

/-- Claim C7 (counterexample): the claim as stated is false.  When the
subject list is empty, generateSchedule returns early and leaves the whole
schedule — including non-fixed, non-completed auto tasks — untouched, so
the resulting schedule is not the concatenation of the preserved tasks with
the (empty) new-task list. -/
theorem C7_frame_counterexample :
    mergedSchedule [] [⟨60, 1, 0, 45, false, 0, false⟩] ⟨2, 5, 3⟩ 0 ≠
      ([⟨60, 1, 0, 45, false, 0, false⟩] : List DailyTask).filter
          isFixedOrCompleted ++
        generateSchedule [] [⟨60, 1, 0, 45, false, 0, false⟩]
          ⟨2, 5, 3⟩ 0 := by decide

/-- Claim C7 (amended): every task that is fixed or completed before the
run appears unchanged in the resulting schedule, and when the subject list
is nonempty the resulting schedule is exactly the preserved tasks (in their
original order) followed by the newly generated tasks.  When the subject
list is empty the run is a no-op that leaves the previous schedule — auto
tasks included — in place. -/
theorem C7_frame_amended (subjects : List Subject)
    (schedule : List DailyTask) (settings : UserSettings) (today : Nat) :
    (∀ tk ∈ schedule, isFixedOrCompleted tk = true →
      tk ∈ mergedSchedule subjects schedule settings today) ∧
    (subjects ≠ [] →
      mergedSchedule subjects schedule settings today =
        schedule.filter isFixedOrCompleted ++
          generateSchedule subjects schedule settings today) := by
  constructor
  · intro tk htk hp
    rw [mergedSchedule]
    split
    · exact htk
    · exact List.mem_append_left _ (List.mem_filter.mpr ⟨htk, hp⟩)
  · intro hne
    rw [mergedSchedule]
    split
    · rename_i hemp
      exact absurd (List.isEmpty_iff.mp hemp) hne
    · rfl

/-- Claim C7 (witness): at a concrete nonempty subject list the result is
the concatenation of the preserved tasks with the newly generated tasks. -/
theorem C7_frame_witness :
    mergedSchedule [⟨1, 1, 5⟩] [] ⟨2, 5, 3⟩ 0 =
      ([] : List DailyTask).filter isFixedOrCompleted ++
        generateSchedule [⟨1, 1, 5⟩] [] ⟨2, 5, 3⟩ 0 :=
  (C7_frame_amended [⟨1, 1, 5⟩] [] ⟨2, 5, 3⟩ 0).2 (by decide)

/-- Claim C8 (counterexample): the claim as stated is false.  A subject of
difficulty 1 with a preserved completed task of 170 actual minutes has only
10 minutes of remaining need, so the allocator generates a 10-minute task —
positive, but not a multiple of the 30-minute slot. -/
theorem C8_slots_counterexample :
    ∃ tk ∈ generateSchedule [⟨1, 1, 10⟩] [⟨9, 1, 0, 60, true, 170, false⟩]
      ⟨2, 5, 3⟩ 0, ¬ (30 ∣ tk.plannedMinutes) := by decide

/-- Claim C8 (amended): every newly generated task has positive
plannedMinutes, for every input; and whenever every preserved task carries
planned and actual minutes that are multiples of 30, every newly generated
task's plannedMinutes is a (positive) multiple of the 30-minute slot. -/
theorem C8_slots_amended (subjects : List Subject)
    (schedule : List DailyTask) (settings : UserSettings) (today : Nat) :
    (∀ tk ∈ generateSchedule subjects schedule settings today,
      0 < tk.plannedMinutes) ∧
    ((∀ tk ∈ schedule.filter isFixedOrCompleted,
        30 ∣ tk.plannedMinutes ∧ 30 ∣ tk.actualMinutes) →
      ∀ tk ∈ generateSchedule subjects schedule settings today,
        30 ∣ tk.plannedMinutes) := by
  constructor
  · rw [generateSchedule, runAllocator_eq]
    exact allocLoop_tasks_pos (schedule.filter isFixedOrCompleted) settings
      365 today
      ⟨initialPendingWork subjects (schedule.filter isFixedOrCompleted),
        [], 0⟩
      (by intro tk h2; exact absurd h2 (List.not_mem_nil tk))
  · intro hdvd
    rw [generateSchedule, runAllocator_eq]
    refine allocLoop_mult30 (schedule.filter isFixedOrCompleted) settings
      (fun tk htk => (hdvd tk htk).1) 365 today
      ⟨initialPendingWork subjects (schedule.filter isFixedOrCompleted),
        [], 0⟩
      ?_ (by intro tk h2; exact absurd h2 (List.not_mem_nil tk))
    intro w hw
    obtain ⟨hsub, hpos, hneed⟩ := mem_initialPendingWork _ _ w hw
    rw [hneed]
    refine Nat.dvd_sub' ?_ (dvd_allocatedMins _ _ hdvd)
    rw [calculateTotalHoursNeeded]
    exact ⟨w.subject.difficulty * 6, by ring⟩

/-- Claim C8 (witness): the spec's own scenario (one subject of difficulty
2, weekday budget 2 hours, anchor on a Monday, no preserved tasks): every
generated task has positive planned minutes that are multiples of 30. -/
theorem C8_slots_witness :
    (∀ tk ∈ generateSchedule [⟨1, 2, 14⟩] [] ⟨2, 5, 3⟩ 4,
      0 < tk.plannedMinutes) ∧
    (∀ tk ∈ generateSchedule [⟨1, 2, 14⟩] [] ⟨2, 5, 3⟩ 4,
      30 ∣ tk.plannedMinutes) :=
  ⟨(C8_slots_amended [⟨1, 2, 14⟩] [] ⟨2, 5, 3⟩ 4).1,
    (C8_slots_amended [⟨1, 2, 14⟩] [] ⟨2, 5, 3⟩ 4).2 (by decide)⟩

/-- Claim C9 (counterexample): the claim as stated is false.  With
maxSubjectsPerDay = 0 the run still terminates, but it is not true that
"no subject can satisfy the cap-gate" and "every day produces zero
allocation": a subject with a preserved fixed task on the anchor date is
already in the day's assigned set, bypasses the gate, and receives new
minutes, and here its need even completes before the 365-day horizon. -/
theorem C9_cap_zero_counterexample :
    generateSchedule [⟨2, 1, 10⟩] [⟨9, 2, 2, 90, false, 0, true⟩]
      ⟨2, 5, 0⟩ 2 ≠ [] := by decide

/-- Claim C9 (amended): generateSchedule always terminates — the day loop is
bounded by the 365-day horizon by construction — and when
maxSubjectsPerDay = 0 and there are no preserved tasks, no subject can pass
the cap-gate, every day produces zero allocation, and the run returns the
empty new-task set after falling through the horizon.  With preserved
tasks, a subject already assigned on a date bypasses the gate (claim
C10). -/
theorem C9_cap_zero_amended (subjects : List Subject)
    (schedule : List DailyTask) (settings : UserSettings) (today : Nat)
    (hcap : settings.maxSubjectsPerDay = 0)
    (hfoc : schedule.filter isFixedOrCompleted = []) :
    generateSchedule subjects schedule settings today = [] := by
  rw [generateSchedule, runAllocator_eq, hfoc]
  exact allocLoop_cap_zero settings hcap 365 today _

/-- Claim C9 (witness): a concrete cap-0 run with no preserved tasks
returns the empty new-task set. -/
theorem C9_cap_zero_witness :
    generateSchedule [⟨1, 1, 10⟩] [] ⟨2, 5, 0⟩ 0 = [] :=
  C9_cap_zero_amended [⟨1, 1, 10⟩] [] ⟨2, 5, 0⟩ 0 rfl rfl

/-- Claim C10 (confirmed): a subject that already has a preserved task on a
date bypasses the per-day subject-cap gate on that date.  Concretely: with
maxSubjectsPerDay = 0 (so the assigned count, 1, is ≥ the cap) and a
preserved fixed task of subject 1 on day 2, generateSchedule still
allocates new positive minutes to subject 1 on day 2. -/
theorem C10_gate_bypass :
    0 < (initialAssigned (([⟨9, 1, 2, 60, false, 0, true⟩] :
        List DailyTask).filter isFixedOrCompleted) 2).length ∧
    ∃ tk ∈ generateSchedule [⟨1, 1, 10⟩] [⟨9, 1, 2, 60, false, 0, true⟩]
        ⟨2, 5, 0⟩ 2,
      tk.subjectId = 1 ∧ tk.date = 2 ∧ 0 < tk.plannedMinutes := by decide

end Procan
